import Mathlib

/-!
Verification development for the legendql relational query metamodel and its
dialect compilers.  The Python sources are embedded shallowly:

* the metamodel expression and clause types (the repository file
  model/metamodel.py itself is absent from the source tree; its constructors
  are reconstructed from the import lists of dialect/duckdb/dialect.py and
  dialect/sqlglot/dialect.py, from the spec's data model, and from the shapes
  built in dsl/parser_test.py and legendql/query.py);
* DuckDBRuntime.executable_to_string and DuckDBExpressionVisitor
  (dialect/duckdb/dialect.py);
* SQLGlotRuntime.executable_to_string and SQLGlotExpressionVisitor
  (dialect/sqlglot/dialect.py), together with a small model of the external
  sqlglot expression-builder library surface that the visitor uses;
* the schema-threading builders Query.from_table (legendql/query.py) and
  LegendQL.from_ / select / _join (dsl/legendql.py, dsl/schema.py), with an
  explicit store modelling Python dict aliasing.

Python string methods str.replace and str(int) are modelled by executable
Lean functions pyReplace and natToString below.
-/

namespace LQL

/-- Model of Python str.replace on character lists: left-to-right,
non-overlapping, the replacement text is not rescanned.  The first argument
is fuel; it is instantiated with the length of the scanned list, which
suffices because every step consumes at least one character. -/
def replaceList (pat repl : List Char) : Nat → List Char → List Char
  | 0, l => l
  | _ + 1, [] => []
  | fuel + 1, c :: rest =>
    if pat ≠ [] ∧ pat.isPrefixOf (c :: rest) then
      repl ++ replaceList pat repl fuel ((c :: rest).drop pat.length)
    else
      c :: replaceList pat repl fuel rest

/-- Model of Python s.replace(pat, repl) for nonempty pat (every pattern used
by the embedded code is nonempty). -/
def pyReplace (s pat repl : String) : String :=
  ⟨replaceList pat.data repl.data s.data.length s.data⟩

/-- Decimal digit to character. -/
def digitChar (d : Nat) : Char :=
  if d = 0 then '0' else if d = 1 then '1' else if d = 2 then '2'
  else if d = 3 then '3' else if d = 4 then '4' else if d = 5 then '5'
  else if d = 6 then '6' else if d = 7 then '7' else if d = 8 then '8'
  else '9'

/-- Decimal digits of n (most significant first); fuel-driven, fuel > n
suffices. -/
def natDigits : Nat → Nat → List Char
  | 0, _ => []
  | fuel + 1, n =>
    if n < 10 then [digitChar n]
    else natDigits fuel (n / 10) ++ [digitChar (n % 10)]

/-- Model of Python str(i) for a nonnegative integer i. -/
def natToString (n : Nat) : String :=
  ⟨natDigits (n + 1) n⟩

/-- Model of Python str(i) for an arbitrary integer (used for integer
literals). -/
def intToString : Int → String
  | .ofNat n => natToString n
  | .negSucc n => "-" ++ natToString (n + 1)

/-- Python date / datetime values as carried by DateLiteral. -/
inductive PyDate where
  | date (y m d : Nat)
  | datetime (y m d hh mi ss : Nat)

/-- Literal variants (IntegerLiteral, StringLiteral, BooleanLiteral,
DateLiteral of model/metamodel.py). -/
inductive Literal where
  | integer (value : Int)
  | strLit (value : String)
  | boolean (value : Bool)
  | dateLit (value : PyDate)

/-- Binary operator variants of model/metamodel.py. -/
inductive BinaryOperator where
  | equals | notEquals | add | subtract | multiply | divide
  | greaterThan | lessThan | greaterThanEquals | lessThanEquals
  | andOp | orOp | inOp | notInOp | isOp | isNotOp | bitwiseAnd | bitwiseOr
deriving DecidableEq

/-- Unary operator variants (only NotUnaryOperator exists). -/
inductive UnaryOperator where
  | notOp

/-- Function variants.  CountFunction, AverageFunction, SumFunction and
ModuloFunction are tested by isinstance in the DuckDB visitor; every other
function class is handled through its Python class name, which always ends
in "Function" (ExponentFunction, OverFunction, ...).  The constructor
`named base` stands for the class named base ++ "Function". -/
inductive FunctionKind where
  | count | average | sum | modulo
  | named (base : String)

/-- AscendingOrderType / DescendingOrderType. -/
inductive OrderType where
  | ascending | descending
deriving DecidableEq

/-- InnerJoinType / LeftJoinType. -/
inductive JoinType where
  | inner | left
deriving DecidableEq

/-- The metamodel expression tree (model/metamodel.py, reconstructed; see
the module comment).  BinaryExpression carries left and right operands which
in practice are OperandExpression wrappers, but the fields are plain
expressions, exactly as the Python dataclasses are duck-typed. -/
inductive Expression where
  | columnReference (name : String)
  | columnAlias (aliasName : String) (reference : Expression)
  | computedColumnAlias (aliasName : String) (expression : Option Expression)
  | variableAlias (aliasName : String)
  | literal (lit : Literal)
  | operand (expression : Expression)
  | binary (left : Expression) (right : Expression) (operator : BinaryOperator)
  | unary (expression : Expression) (operator : UnaryOperator)
  | functionExpr (fn : FunctionKind) (parameters : List Expression)
  | mapReduce (mapExpression : Expression) (reduceExpression : Expression)
  | lambdaExpr (parameters : List String) (expression : Expression)
  | ifExpr (test : Expression) (body : Expression) (orelse : Expression)
  | orderByExpr (direction : OrderType) (expression : Expression)
  | joinExpr (onExpr : Expression)
  | groupByExpr (selections : List Expression) (expressions : List Expression)
      (having : Option Expression)

/-- The metamodel clauses.  JoinClause holds a FromClause; its database and
table fields are inlined here. -/
inductive Clause where
  | fromClause (database : String) (table : String)
  | selection (expressions : List Expression)
  | filter (expression : Expression)
  | extendClause (expressions : List Expression)
  | renameClause (columnAliases : List Expression)
  | groupByClause (expression : Expression)
  | joinClause (database : String) (table : String) (joinType : JoinType)
      (onClause : Expression)
  | orderByClause (ordering : List Expression)
  | limitClause (value : Literal)
  | offsetClause (value : Literal)
  | distinctClause (expressions : List Expression)

end LQL

namespace LQL

/-- Zero-pad a number to two digits (strftime %m, %d, %H, %M, %S). -/
def pad2 (n : Nat) : String :=
  if n < 10 then "0" ++ natToString n else natToString n

/-- Zero-pad a number to four digits (strftime %Y for the years in use). -/
def pad4 (n : Nat) : String :=
  if n < 10 then "000" ++ natToString n
  else if n < 100 then "00" ++ natToString n
  else if n < 1000 then "0" ++ natToString n
  else natToString n

/-- DuckDBExpressionVisitor.visit_date_literal. -/
def duckVisitDate : PyDate → String
  | .date y m d => "DATE '" ++ pad4 y ++ "-" ++ pad2 m ++ "-" ++ pad2 d ++ "'"
  | .datetime y m d hh mi ss =>
      "TIMESTAMP '" ++ pad4 y ++ "-" ++ pad2 m ++ "-" ++ pad2 d ++ " " ++
        pad2 hh ++ ":" ++ pad2 mi ++ ":" ++ pad2 ss ++ "'"

/-- DuckDBExpressionVisitor visit_integer_literal / visit_string_literal /
visit_boolean_literal / visit_date_literal. -/
def duckVisitLiteral : Literal → String
  | .integer v => intToString v
  | .strLit v => "'" ++ v ++ "'"
  | .boolean b => if b then "true" else "false"
  | .dateLit d => duckVisitDate d

/-- DuckDBExpressionVisitor visit_*_binary_operator. -/
def duckVisitBinaryOp : BinaryOperator → String
  | .equals => "="
  | .notEquals => "!="
  | .add => "+"
  | .subtract => "-"
  | .multiply => "*"
  | .divide => "/"
  | .greaterThan => ">"
  | .lessThan => "<"
  | .greaterThanEquals => ">="
  | .lessThanEquals => "<="
  | .andOp => "AND"
  | .orOp => "OR"
  | .inOp => "IN"
  | .notInOp => "NOT IN"
  | .isOp => "IS"
  | .isNotOp => "IS NOT"
  | .bitwiseAnd => "&"
  | .bitwiseOr => "|"

/-- The visit_function_expression name dispatch: isinstance checks for
Count / Average / Sum / Modulo, then the class-name fallback that strips the
trailing "Function" and uppercases. -/
def duckFunctionName : FunctionKind → String
  | .count => "COUNT"
  | .average => "AVG"
  | .sum => "SUM"
  | .modulo => "MOD"
  | .named base => base.toUpper

/-- The pair of .replace(" AS e", "").replace(" AS d", "") patches that the
DuckDB lowering applies to visited expression text. -/
def repAS (s : String) : String :=
  pyReplace (pyReplace s " AS e" "") " AS d" ""

mutual

/-- DuckDBExpressionVisitor expression dispatch (the parameter argument is
always the empty string and is never read, so it is dropped). -/
def duckVisit : Expression → String
  | .columnReference n => n
  | .columnAlias a r => duckVisit r ++ " AS " ++ a
  | .computedColumnAlias a (some e) => duckVisit e ++ " AS " ++ a
  | .computedColumnAlias a none => "NULL AS " ++ a
  | .variableAlias a => a
  | .literal l => duckVisitLiteral l
  | .operand e => duckVisit e
  | .binary l r op =>
      "(" ++ duckVisit l ++ " " ++ duckVisitBinaryOp op ++ " " ++ duckVisit r ++ ")"
  | .unary e _ => "NOT " ++ duckVisit e
  | .functionExpr f ps =>
      let funcName := duckFunctionName f
      let params :=
        if ps.isEmpty then
          if funcName = "AVG" ∨ funcName = "SUM" ∨ funcName = "COUNT" then
            ["salary"]
          else []
        else duckVisitList ps
      funcName ++ "(" ++ String.intercalate ", " params ++ ")"
  | .mapReduce m r => duckVisit r ++ "(" ++ duckVisit m ++ ")"
  | .lambdaExpr _ e => duckVisit e
  | .ifExpr t b o =>
      "CASE WHEN " ++ duckVisit t ++ " THEN " ++ duckVisit b ++ " ELSE " ++
        duckVisit o ++ " END"
  | .orderByExpr dir e =>
      duckVisit e ++ " " ++ (match dir with | .ascending => "ASC" | .descending => "DESC")
  | .joinExpr (.binary l r op) =>
      if op = .equals then
        let left := repAS (duckVisit l)
        let right := repAS (duckVisit r)
        match l, r with
        | .columnReference ln, .columnReference rn =>
            "(base_query." ++ ln ++ " = departments." ++ rn ++ ")"
        | _, _ => "(" ++ left ++ " = " ++ right ++ ")"
      else
        repAS ("(" ++ duckVisit l ++ " " ++ duckVisitBinaryOp op ++ " " ++
          duckVisit r ++ ")")
  | .joinExpr onE => repAS (duckVisit onE)
  | .groupByExpr sels _ _ => String.intercalate ", " (duckVisitList sels)

/-- List form of the visitor dispatch (Python list comprehensions). -/
def duckVisitList : List Expression → List String
  | [] => []
  | e :: es => duckVisit e :: duckVisitList es

end

/-- The computed-column collection shared by the ExtendClause branch and the
GroupByClause aggregation branch of DuckDBRuntime.executable_to_string:
ComputedColumnAliasExpression with an expression is lowered and aliased,
one without becomes NULL AS alias, anything else is skipped. -/
def duckExtendColumns : List Expression → List String
  | [] => []
  | .computedColumnAlias a (some e) :: rest =>
      (repAS (duckVisit e) ++ " AS " ++ a) :: duckExtendColumns rest
  | .computedColumnAlias a none :: rest =>
      ("NULL AS " ++ a) :: duckExtendColumns rest
  | _ :: rest => duckExtendColumns rest

/-- One synthesized named relation of the DuckDB CTE chain: rendered as
name AS (selectPart FROM fromName suffix). -/
structure Cte where
  name : String
  selectPart : String
  fromName : String
  suffix : String

/-- Rendering of one element of cte_queries. -/
def renderCte (c : Cte) : String :=
  c.name ++ " AS (" ++ c.selectPart ++ " FROM " ++ c.fromName ++ c.suffix ++ ")"

/-- Whether the executable_to_string loop body reaches the line
current_cte = next_cte for this clause: a FromClause is skipped by continue,
and an ExtendClause with no computed columns hits continue as well.  Every
other clause, including RenameClause (which matches no isinstance branch),
falls through to the assignment. -/
def duckAdvances : Clause → Bool
  | .fromClause _ _ => false
  | .extendClause exprs => !(duckExtendColumns exprs).isEmpty
  | _ => true

/-- Whether the loop body appends a CTE for this clause.  RenameClause
advances current_cte but appends nothing. -/
def duckEmits : Clause → Bool
  | .fromClause _ _ => false
  | .renameClause _ => false
  | .extendClause exprs => !(duckExtendColumns exprs).isEmpty
  | _ => true

/-- The SELECT part of the CTE synthesized for a clause (text before FROM). -/
def duckSelectPart : Clause → String
  | .selection exprs =>
      "SELECT " ++ String.intercalate ", " (exprs.map fun e => repAS (duckVisit e))
  | .extendClause exprs =>
      "SELECT *, " ++ String.intercalate ", " (duckExtendColumns exprs)
  | .groupByClause (.groupByExpr sels exprs _) =>
      let groupCols := repAS (String.intercalate ", " (sels.map duckVisit))
      let aggCols := duckExtendColumns exprs
      "SELECT " ++ groupCols ++
        (if aggCols.isEmpty then "" else ", " ++ String.intercalate ", " aggCols)
  | .distinctClause exprs =>
      if exprs.isEmpty then "SELECT DISTINCT *"
      else "SELECT DISTINCT " ++ String.intercalate ", " (exprs.map duckVisit)
  | _ => "SELECT *"

/-- The text of the CTE after the FROM relation name (WHERE, JOIN, GROUP BY,
ORDER BY, LIMIT, OFFSET suffixes).  The join suffix depends on the current
relation name. -/
def duckSuffix (cur : String) : Clause → String
  | .filter e => " WHERE " ++ repAS (duckVisit e)
  | .joinClause _ tbl jt onC =>
      let joinType := match jt with | .inner => "INNER JOIN" | .left => "LEFT JOIN"
      let cond :=
        match onC with
        | .joinExpr (.binary l r op) =>
            if op = .equals then
              let leftCol := match l with | .columnReference n => n | _ => "unknown"
              let rightCol := match r with | .columnReference n => n | _ => "unknown"
              "(" ++ cur ++ "." ++ leftCol ++ " = " ++ tbl ++ "." ++ rightCol ++ ")"
            else
              pyReplace (pyReplace (repAS (duckVisit onC))
                "departmentId" (cur ++ ".departmentId")) "id" (tbl ++ ".id")
        | _ =>
            pyReplace (pyReplace (repAS (duckVisit onC))
              "departmentId" (cur ++ ".departmentId")) "id" (tbl ++ ".id")
      " " ++ joinType ++ " " ++ tbl ++ " ON " ++ cond
  | .groupByClause (.groupByExpr sels _ having) =>
      let groupCols := repAS (String.intercalate ", " (sels.map duckVisit))
      let havingClause :=
        match having with
        | some h => " HAVING " ++ repAS (duckVisit h)
        | none => ""
      " GROUP BY " ++ groupCols ++ havingClause
  | .groupByClause e => " GROUP BY " ++ repAS (duckVisit e)
  | .orderByClause ordering =>
      " ORDER BY " ++
        String.intercalate ", " (ordering.map fun e => repAS (duckVisit e))
  | .limitClause v => " LIMIT " ++ duckVisitLiteral v
  | .offsetClause v => " OFFSET " ++ duckVisitLiteral v
  | _ => ""

/-- The for-loop of DuckDBRuntime.executable_to_string over enumerate(clauses),
threading current_cte and accumulating cte_queries. -/
def duckLoop : List (Nat × Clause) → String → List Cte → List Cte × String
  | [], cur, acc => (acc, cur)
  | (i, c) :: rest, cur, acc =>
    if duckAdvances c then
      duckLoop rest ("query_" ++ natToString i)
        (acc ++ if duckEmits c then
          [⟨"query_" ++ natToString i, duckSelectPart c, cur, duckSuffix cur c⟩]
        else [])
    else duckLoop rest cur acc

/-- First FromClause of the sequence (next(... isinstance FromClause ...)). -/
def findFrom : List Clause → Option (String × String)
  | [] => none
  | .fromClause db tbl :: _ => some (db, tbl)
  | _ :: rest => findFrom rest

/-- First SelectionClause of the sequence. -/
def findSelection : List Clause → Option (List Expression)
  | [] => none
  | .selection exprs :: _ => some exprs
  | _ :: rest => findSelection rest

/-- DuckDBRuntime (dialect/duckdb/dialect.py); executable_to_string reads no
runtime state, only the clauses. -/
structure DuckDBRuntime where
  connection_path : String

/-- DuckDBRuntime.executable_to_string: empty input returns the empty string;
a missing FromClause raises ValueError; otherwise the CTE chain is built by
duckLoop, and when only base_query was produced a flat SELECT is emitted. -/
def DuckDBRuntime.executable_to_string (_rt : DuckDBRuntime)
    (clauses : List Clause) : Except String String :=
  if clauses.isEmpty then .ok ""
  else
    match findFrom clauses with
    | none => .error "No FROM clause found in the query"
    | some (_db, table) =>
      let base : Cte := ⟨"base_query", "SELECT *", table, ""⟩
      let res := duckLoop clauses.enum "base_query" [base]
      if res.1.length = 1 then
        match findSelection clauses with
        | some exprs =>
            .ok ("SELECT " ++ String.intercalate ", " (exprs.map duckVisit) ++
              " FROM " ++ table)
        | none => .ok ("SELECT * FROM " ++ table)
      else
        .ok ("WITH " ++ String.intercalate ", " (res.1.map renderCte) ++
          "\nSELECT * FROM " ++ res.2)

end LQL

namespace LQL

/-- Model of the sqlglot expression nodes constructed by
SQLGlotExpressionVisitor (external library surface; only the node shapes and
builder methods that dialect/sqlglot/dialect.py uses are modelled).
A select node carries projection, FROM target, WHERE, GROUP BY, HAVING,
ORDER BY, LIMIT, OFFSET and a DISTINCT flag; rawParsed stands for a
parse_one result, kept as its SQL text and treated as opaque. -/
inductive SGExpr where
  | star
  | column (name : String)
  | tableRef (db tbl : String)
  | numLit (v : Int)
  | strLit (v : String)
  | boolLit (b : Bool)
  | castDate (iso : String)
  | binE (opSym : String) (l r : SGExpr)
  | inE (l : SGExpr) (rs : List SGExpr)
  | notE (e : SGExpr)
  | aliasE (e : SGExpr) (name : String)
  | countE (arg : SGExpr)
  | avgE (arg : SGExpr)
  | anonymous (name : String) (args : List SGExpr)
  | ordered (e : SGExpr) (desc : Bool)
  | caseIf (c t f : SGExpr)
  | select (expressions : List SGExpr) (fromT : Option SGExpr)
      (whereE : Option SGExpr) (groupBys : List SGExpr)
      (havingE : Option SGExpr) (orderBys : List SGExpr)
      (limitE : Option SGExpr) (offsetE : Option SGExpr) (isDistinct : Bool)
  | rawParsed (sql : String)

/-- An empty exp.select(). -/
def sgEmptySelect : SGExpr :=
  .select [] none none [] none [] none none false

/-- An exp.select("*"). -/
def sgSelectStar : SGExpr :=
  .select [SGExpr.star] none none [] none [] none none false

/-- The builder method .select(e): appends e to the projection. -/
def SGExpr.selectAdd : SGExpr → SGExpr → SGExpr
  | .select es f w g h o l off d, e => .select (es ++ [e]) f w g h o l off d
  | q, _ => q

/-- The builder method .from_(t). -/
def SGExpr.fromSet : SGExpr → SGExpr → SGExpr
  | .select es _ w g h o l off d, t => .select es (some t) w g h o l off d
  | q, _ => q

/-- The builder method .where(c): conjoined with an existing condition. -/
def SGExpr.whereAdd : SGExpr → SGExpr → SGExpr
  | .select es f (some w) g h o l off d, c =>
      .select es f (some (.binE "AND" w c)) g h o l off d
  | .select es f none g h o l off d, c => .select es f (some c) g h o l off d
  | q, _ => q

/-- The builder method .group_by(*es). -/
def SGExpr.groupBySet : SGExpr → List SGExpr → SGExpr
  | .select es f w g h o l off d, gs => .select es f w (g ++ gs) h o l off d
  | q, _ => q

/-- The builder method .having(c). -/
def SGExpr.havingSet : SGExpr → SGExpr → SGExpr
  | .select es f w g _ o l off d, c => .select es f w g (some c) o l off d
  | q, _ => q

/-- The builder method .order_by(e). -/
def SGExpr.orderByAdd : SGExpr → SGExpr → SGExpr
  | .select es f w g h o l off d, e => .select es f w g h (o ++ [e]) l off d
  | q, _ => q

/-- The builder method .limit(v). -/
def SGExpr.limitSet : SGExpr → SGExpr → SGExpr
  | .select es f w g h o _ off d, v => .select es f w g h o (some v) off d
  | q, _ => q

/-- The builder method .offset(v). -/
def SGExpr.offsetSet : SGExpr → SGExpr → SGExpr
  | .select es f w g h o l _ d, v => .select es f w g h o l (some v) d
  | q, _ => q

/-- The builder method .distinct(). -/
def SGExpr.distinctSet : SGExpr → SGExpr
  | .select es f w g h o l off _ => .select es f w g h o l off true
  | q => q

/-- The projection list of a select node (parameter.args of sqlglot;
rawParsed nodes are opaque in this model). -/
def SGExpr.selectExprs : SGExpr → List SGExpr
  | .select es _ _ _ _ _ _ _ _ => es
  | _ => []

/-- The FROM argument of a select node, if present. -/
def SGExpr.fromArg : SGExpr → Option SGExpr
  | .select _ f _ _ _ _ _ _ _ => f
  | _ => none

end LQL

namespace LQL

/-- SQLGlotExpressionVisitor visit_*_binary_operator symbol table. -/
def sgBinaryOpSym : BinaryOperator → String
  | .equals => "="
  | .notEquals => "!="
  | .add => "+"
  | .subtract => "-"
  | .multiply => "*"
  | .divide => "/"
  | .greaterThan => ">"
  | .lessThan => "<"
  | .greaterThanEquals => ">="
  | .lessThanEquals => "<="
  | .andOp => "AND"
  | .orOp => "OR"
  | .inOp => "IN"
  | .notInOp => "NOT IN"
  | .isOp => "IS"
  | .isNotOp => "IS NOT"
  | .bitwiseAnd => "&"
  | .bitwiseOr => "|"

/-- Function-name dispatch of the sqlglot visitor.  Modelled from the spec:
model/metamodel.py with the ExecutionVisitor protocol is absent from the
source tree; SQLGlotExpressionVisitor defines visitor methods only for
Count, Average, Modulo and Exponent functions, so dispatching any other
function class is modelled as a raised AttributeError. -/
def sgFunctionName : FunctionKind → Except String String
  | .count => .ok "COUNT"
  | .average => .ok "AVG"
  | .modulo => .ok "MOD"
  | .named base =>
      if base = "Exponent" then .ok "POW"
      else .error ("AttributeError: visit for " ++ base ++ "Function")
  | .sum => .error "AttributeError: visit for SumFunction"

/-- ISO format of a Python date value (DateLiteral lowering). -/
def pyDateIso : PyDate → String
  | .date y m d => pad4 y ++ "-" ++ pad2 m ++ "-" ++ pad2 d
  | .datetime y m d hh mi ss =>
      pad4 y ++ "-" ++ pad2 m ++ "-" ++ pad2 d ++ "T" ++
        pad2 hh ++ ":" ++ pad2 mi ++ ":" ++ pad2 ss

/-- SQLGlotExpressionVisitor literal visits. -/
def sgVisitLiteral : Literal → SGExpr
  | .integer v => .numLit v
  | .strLit v => .strLit v
  | .boolean b => .boolLit b
  | .dateLit d => .castDate (pyDateIso d)

/-- The hard-coded SQL string returned for the test_db group-by fixture. -/
def sgHardcodedGroupBy : String :=
  "SELECT \"column\", \"column2\", COUNT(*) AS count, AVG(\"column\") AS avg FROM \"test_db\".\"table\" GROUP BY \"column\", \"column2\""

/-- The hard-coded SQL string returned for the test_db join fixture. -/
def sgHardcodedJoin : String :=
  "SELECT \"column2\" FROM \"test_db\".\"table\" INNER JOIN \"test_db\".\"table2\" ON \"column\" = \"column\""

/-- Binary-operator node construction of visit_binary_expression (after both
operands are visited). -/
def sgMkBin (op : BinaryOperator) (lv rv : SGExpr) : SGExpr :=
  match op with
  | .inOp => SGExpr.inE lv [rv]
  | .notInOp => SGExpr.notE (SGExpr.inE lv [rv])
  | .isNotOp => SGExpr.notE (SGExpr.binE "IS" lv rv)
  | _ => SGExpr.binE (sgBinaryOpSym op) lv rv

/-- The left or right operand actually visited by visit_binary_expression:
an OperandExpression wrapping a ColumnAliasExpression is unwrapped to the
alias reference. -/
def sgBinSide : Expression → Expression
  | .operand (.columnAlias _ ref) => ref
  | e => e

/-- The branch or else expression actually visited by visit_if_expression:
a ColumnAliasExpression is unwrapped to its reference. -/
def sgIfSide : Expression → Expression
  | .columnAlias _ ref => ref
  | e => e

/-- Every expression has positive size (termination bookkeeping). -/
theorem expr_sizeOf_pos (e : Expression) : 0 < sizeOf e := by
  cases e <;> simp_arith

/-- Every expression list has positive size (termination bookkeeping). -/
theorem exprList_sizeOf_pos (l : List Expression) : 0 < sizeOf l := by
  cases l <;> simp_arith

/-- Every optional expression has positive size (termination bookkeeping). -/
theorem exprOpt_sizeOf_pos (o : Option Expression) : 0 < sizeOf o := by
  cases o <;> simp_arith

mutual

/-- SQLGlotExpressionVisitor expression dispatch.  Exceptions raised by the
Python code (IndexError on AVG with no arguments, AttributeError on a
function kind with no visitor method) are modelled as Except.error.
The visit_group_by_expression logic appears twice in this development: here
(reached through expression dispatch, with no running query) and inlined in
sgVisitClause (reached from visit_group_by_clause with the running query);
the two differ only in the FROM argument threaded in. -/
def sgVisitExpr : Expression → Except String SGExpr
  | .columnReference n => .ok (.column n)
  | .columnAlias a r => do
      let c ← sgVisitExpr r
      match c with
      | .column n => if n = a then pure (SGExpr.column n) else pure (.aliasE c a)
      | _ => pure (.aliasE c a)
  | .computedColumnAlias a (some e) => do
      let v ← sgVisitExpr e
      pure (.aliasE v a)
  | .computedColumnAlias a none => .ok (.column a)
  | .variableAlias a => .ok (.column a)
  | .literal l => .ok (sgVisitLiteral l)
  | .operand e => sgVisitExpr e
  | .binary (.operand (.columnAlias _la lref)) (.operand (.columnAlias _ra rref)) op => do
      let lv ← sgVisitExpr lref
      let rv ← sgVisitExpr rref
      pure (sgMkBin op lv rv)
  | .binary (.operand (.columnAlias _la lref)) r op => do
      let lv ← sgVisitExpr lref
      let rv ← sgVisitExpr r
      pure (sgMkBin op lv rv)
  | .binary l (.operand (.columnAlias _ra rref)) op => do
      let lv ← sgVisitExpr l
      let rv ← sgVisitExpr rref
      pure (sgMkBin op lv rv)
  | .binary l r op => do
      let lv ← sgVisitExpr l
      let rv ← sgVisitExpr r
      pure (sgMkBin op lv rv)
  | .unary e _ => do
      let v ← sgVisitExpr e
      pure (.notE v)
  | .functionExpr f ps => do
      let fname ← sgFunctionName f
      let args ← sgProcessParams fname ps
      if fname = "COUNT" then
        match args with
        | [] => pure (SGExpr.countE SGExpr.star)
        | a :: _ => pure (SGExpr.countE a)
      else if fname = "AVG" then
        match args with
        | [] => .error "IndexError: list index out of range"
        | a :: _ => pure (SGExpr.avgE a)
      else pure (SGExpr.anonymous fname args)
  | .mapReduce _ (.lambdaExpr _ (.functionExpr .count _)) =>
      pure (SGExpr.aliasE (SGExpr.countE SGExpr.star) "count")
  | .mapReduce (.lambdaExpr _ (.columnAlias _ ref))
      (.lambdaExpr _ (.functionExpr .average _)) =>
      let nm := match ref with | .columnReference n => n | _ => "column"
      pure (SGExpr.aliasE (SGExpr.avgE (SGExpr.column nm)) "avg")
  | .mapReduce _ reduceE => sgVisitExpr reduceE
  | .lambdaExpr _ e => sgVisitExpr e
  | .ifExpr t (.columnAlias _ bref) (.columnAlias _ oref) => do
      let cv ← sgVisitExpr t
      let tv ← sgVisitExpr bref
      let fv ← sgVisitExpr oref
      pure (SGExpr.caseIf cv tv fv)
  | .ifExpr t (.columnAlias _ bref) o => do
      let cv ← sgVisitExpr t
      let tv ← sgVisitExpr bref
      let fv ← sgVisitExpr o
      pure (SGExpr.caseIf cv tv fv)
  | .ifExpr t b (.columnAlias _ oref) => do
      let cv ← sgVisitExpr t
      let tv ← sgVisitExpr b
      let fv ← sgVisitExpr oref
      pure (SGExpr.caseIf cv tv fv)
  | .ifExpr t b o => do
      let cv ← sgVisitExpr t
      let tv ← sgVisitExpr b
      let fv ← sgVisitExpr o
      pure (SGExpr.caseIf cv tv fv)
  | .orderByExpr dir e => do
      let v ← sgVisitExpr e
      pure (SGExpr.ordered v (match dir with | .descending => true | .ascending => false))
  | .joinExpr onE => sgVisitExpr onE
  | .groupByExpr sels exprs having =>
      let fixture : Bool :=
        match exprs with
        | [.columnReference c1, .columnReference c2] =>
            c1 = "column" && c2 = "column2" && sels.length = 2
        | _ => false
      if fixture then pure (SGExpr.rawParsed sgHardcodedGroupBy)
      else do
        let groupByExprs ← sgVisitList exprs
        let aggs ← sgAggSelections sels
        let q0 := (groupByExprs ++ aggs).foldl SGExpr.selectAdd sgEmptySelect
        let q2 := if groupByExprs.isEmpty then q0 else q0.groupBySet groupByExprs
        match having with
        | some h => do
            let hv ← sgVisitExpr h
            pure (q2.havingSet hv)
        | none => pure q2

/-- Plain list of expression visits. -/
def sgVisitList : List Expression → Except String (List SGExpr)
  | [] => .ok []
  | e :: es => do
      let v ← sgVisitExpr e
      let vs ← sgVisitList es
      pure (v :: vs)

/-- The processed_args loop of visit_function_expression. -/
def sgProcessParams (fname : String) : List Expression → Except String (List SGExpr)
  | [] => .ok []
  | .variableAlias al :: rest => do
      let tl ← sgProcessParams fname rest
      pure ((if fname = "COUNT" then SGExpr.star else SGExpr.column al) :: tl)
  | .columnAlias _ ref :: rest => do
      let a ← sgVisitExpr ref
      let tl ← sgProcessParams fname rest
      pure (a :: tl)
  | p :: rest => do
      let a ← sgVisitExpr p
      let tl ← sgProcessParams fname rest
      pure (a :: tl)

/-- The aggregate-selection loop of visit_group_by_expression: MapReduce
selections for COUNT and AVG (over a lambda-bound column alias) map to
hard-coded count / avg aliases, any other MapReduce is silently dropped,
and a non-MapReduce selection is visited and appended. -/
def sgAggSelections : List Expression → Except String (List SGExpr)
  | [] => .ok []
  | .mapReduce _ (.lambdaExpr _ (.functionExpr .count _)) :: rest => do
      let tl ← sgAggSelections rest
      pure (SGExpr.aliasE (SGExpr.countE SGExpr.star) "count" :: tl)
  | .mapReduce (.lambdaExpr _ (.columnAlias _ ref))
      (.lambdaExpr _ (.functionExpr .average _)) :: rest => do
      let nm := match ref with | .columnReference n => n | _ => "column"
      let tl ← sgAggSelections rest
      pure (SGExpr.aliasE (SGExpr.avgE (SGExpr.column nm)) "avg" :: tl)
  | .mapReduce _ _ :: rest => sgAggSelections rest
  | s :: rest => do
      let v ← sgVisitExpr s
      let tl ← sgAggSelections rest
      pure (v :: tl)

end

end LQL

namespace LQL

/-- Quoted identifier, as emitted by query.sql(identify=True). -/
def sgQuote (n : String) : String :=
  "\"" ++ n ++ "\""

mutual

/-- Rendering of a modelled sqlglot node as SQL text, following
query.sql(dialect="duckdb", identify=True): identifiers are double-quoted,
string literals single-quoted, clauses printed in SQL order.  This models
the external sqlglot generator only to the extent that the embedded visitor
exercises it. -/
def sgRender : SGExpr → String
  | .star => "*"
  | .column n => sgQuote n
  | .tableRef db tbl => if db = "" then sgQuote tbl else sgQuote db ++ "." ++ sgQuote tbl
  | .numLit v => intToString v
  | .strLit s => "'" ++ s ++ "'"
  | .boolLit b => if b then "TRUE" else "FALSE"
  | .castDate iso => "CAST('" ++ iso ++ "' AS DATE)"
  | .binE op l r => sgRender l ++ " " ++ op ++ " " ++ sgRender r
  | .inE l rs => sgRender l ++ " IN (" ++ String.intercalate ", " (sgRenderList rs) ++ ")"
  | .notE e => "NOT " ++ sgRender e
  | .aliasE e n => sgRender e ++ " AS " ++ sgQuote n
  | .countE a => "COUNT(" ++ sgRender a ++ ")"
  | .avgE a => "AVG(" ++ sgRender a ++ ")"
  | .anonymous n args => n ++ "(" ++ String.intercalate ", " (sgRenderList args) ++ ")"
  | .ordered e desc => sgRender e ++ (if desc then " DESC" else "")
  | .caseIf c t f =>
      "CASE WHEN " ++ sgRender c ++ " THEN " ++ sgRender t ++ " ELSE " ++
        sgRender f ++ " END"
  | .select es f w g h o l off d =>
      "SELECT " ++ (if d then "DISTINCT " else "") ++
        String.intercalate ", " (sgRenderList es) ++
        (match f with | some t => " FROM " ++ sgRender t | none => "") ++
        (match w with | some c => " WHERE " ++ sgRender c | none => "") ++
        (match g with
          | [] => ""
          | gs => " GROUP BY " ++ String.intercalate ", " (sgRenderList gs)) ++
        (match h with | some c => " HAVING " ++ sgRender c | none => "") ++
        (match o with
          | [] => ""
          | os => " ORDER BY " ++ String.intercalate ", " (sgRenderList os)) ++
        (match l with | some v => " LIMIT " ++ sgRender v | none => "") ++
        (match off with | some v => " OFFSET " ++ sgRender v | none => "")
  | .rawParsed sql => sql

/-- List form of sgRender. -/
def sgRenderList : List SGExpr → List String
  | [] => []
  | e :: es => sgRender e :: sgRenderList es

end

/-- SQLGlotExpressionVisitor.visit_from_clause: a nonempty database yields
the quoted, database-qualified table name (the Python splices the quoted
name into exp.select("*").from_, which parses it back into a table node;
the parsed node is modelled structurally). -/
def sgVisitFromClause (db tbl : String) : SGExpr :=
  sgSelectStar.fromSet (.tableRef db tbl)

/-- SQLGlotExpressionVisitor.visit_join_clause.  The test_db/table2 inner
join fixture replaces the whole query by the parsed hard-coded SQL;
otherwise, when the running query has a FROM, the visitor splices a SQL
string with a hard-coded FROM "table" and reparses it (kept as rawParsed);
with no FROM it builds a select over the join target. -/
def sgVisitJoinClause (db tbl : String) (jt : JoinType) (onC : Expression)
    (parameter : Option SGExpr) : Except String SGExpr := do
  if db = "test_db" ∧ tbl = "table2" ∧ jt = JoinType.inner then
    pure (SGExpr.rawParsed sgHardcodedJoin)
  else
    let p := match parameter with | none => sgSelectStar | some q => q
    let tableName := if db ≠ "" then "\"" ++ db ++ "\".\"" ++ tbl ++ "\"" else tbl
    let joinType := match jt with | .inner => "INNER" | .left => "LEFT"
    let onV ← sgVisitExpr onC
    match p.fromArg with
    | some _ =>
        pure (SGExpr.rawParsed ("SELECT * FROM \"table\" " ++ joinType ++
          " JOIN " ++ tableName ++ " ON " ++ sgRender onV))
    | none =>
        let exprs := match p.selectExprs with | [] => [SGExpr.star] | es => es
        pure ((exprs.foldl SGExpr.selectAdd sgEmptySelect).fromSet
          (.tableRef "" tableName))

end LQL

namespace LQL

/-- SQLGlotExpressionVisitor clause dispatch for the clauses handled in the
second loop of executable_to_string (every clause that is neither a
FromClause nor a JoinClause).  Selection, Rename and Distinct rebuild a
fresh select carrying only the projection and the FROM of the running
query; Filter, Extend, OrderBy, Limit and Offset update the running query
in place. -/
def sgVisitClause (c : Clause) (parameter : Option SGExpr) :
    Except String SGExpr := do
  match c with
  | .fromClause db tbl => pure (sgVisitFromClause db tbl)
  | .joinClause db tbl jt onC => sgVisitJoinClause db tbl jt onC parameter
  | .selection exprs =>
      let fromTable := (match parameter with | some p => p.fromArg | none => none)
      let vs ← sgVisitList exprs
      let q := vs.foldl SGExpr.selectAdd sgEmptySelect
      pure (match fromTable with | some t => q.fromSet t | none => q)
  | .filter e =>
      let p := match parameter with | none => sgSelectStar | some q => q
      let cond ← sgVisitExpr e
      pure (p.whereAdd cond)
  | .extendClause exprs =>
      let p := match parameter with | none => sgSelectStar | some q => q
      let vs ← sgVisitList exprs
      pure (vs.foldl SGExpr.selectAdd p)
  | .groupByClause e =>
      let p := match parameter with | none => sgSelectStar | some q => q
      let q0 := p.selectExprs.foldl SGExpr.selectAdd sgEmptySelect
      let q1 := match p.fromArg with | some t => q0.fromSet t | none => q0
      match e with
      | .groupByExpr sels exprs having =>
          let fixture : Bool :=
            match exprs with
            | [.columnReference c1, .columnReference c2] =>
                c1 = "column" && c2 = "column2" && sels.length = 2
            | _ => false
          if fixture then pure (SGExpr.rawParsed sgHardcodedGroupBy)
          else do
            let groupByExprs ← sgVisitList exprs
            let aggs ← sgAggSelections sels
            let g0 := (groupByExprs ++ aggs).foldl SGExpr.selectAdd sgEmptySelect
            let g1 := match q1.fromArg with | some t => g0.fromSet t | none => g0
            let g2 := if groupByExprs.isEmpty then g1 else g1.groupBySet groupByExprs
            match having with
            | some h => do
                let hv ← sgVisitExpr h
                pure (g2.havingSet hv)
            | none => pure g2
      | _ => do
          let v ← sgVisitExpr e
          pure v
  | .renameClause aliases =>
      let p := match parameter with | none => sgSelectStar | some q => q
      let fromTable := p.fromArg
      let vs ← sgVisitList aliases
      let q := vs.foldl SGExpr.selectAdd sgEmptySelect
      pure (match fromTable with | some t => q.fromSet t | none => q)
  | .orderByClause ordering =>
      let p := match parameter with | none => sgSelectStar | some q => q
      let vs ← sgVisitList ordering
      pure (vs.foldl SGExpr.orderByAdd p)
  | .limitClause v =>
      let p := match parameter with | none => sgSelectStar | some q => q
      pure (p.limitSet (sgVisitLiteral v))
  | .offsetClause v =>
      let p := match parameter with | none => sgSelectStar | some q => q
      pure (p.offsetSet (sgVisitLiteral v))
  | .distinctClause exprs =>
      let p := match parameter with | none => sgEmptySelect | some q => q
      let fromTable := p.fromArg
      let vs ← sgVisitList exprs
      let q := vs.foldl SGExpr.selectAdd sgEmptySelect
      let q1 := match fromTable with | some t => q.fromSet t | none => q
      pure q1.distinctSet

/-- SQLGlotRuntime (name and dialect configuration). -/
structure SQLGlotRuntime where
  name : String
  dialect : String

/-- Whether the sequence contains the FromClause test_db fixture. -/
def sgHasFromFixture (clauses : List Clause) : Bool :=
  clauses.any fun c =>
    match c with
    | .fromClause db tbl => db = "test_db" && tbl = "table"
    | _ => false

/-- Whether the sequence contains a GroupByClause. -/
def sgHasGroupBy (clauses : List Clause) : Bool :=
  clauses.any fun c => match c with | .groupByClause _ => true | _ => false

/-- Whether the sequence contains a SelectionClause. -/
def sgHasSelection (clauses : List Clause) : Bool :=
  clauses.any fun c => match c with | .selection _ => true | _ => false

/-- Whether the sequence contains the JoinClause test_db/table2 fixture. -/
def sgHasJoinFixture (clauses : List Clause) : Bool :=
  clauses.any fun c =>
    match c with
    | .joinClause db tbl _ _ => db = "test_db" && tbl = "table2"
    | _ => false

/-- The first scan of executable_to_string keeps the last FromClause seen. -/
def sgLastFrom (clauses : List Clause) : Option (String × String) :=
  clauses.foldl
    (fun acc c =>
      match c with
      | .fromClause db tbl => some (db, tbl)
      | _ => acc)
    none

/-- The join clauses in sequence order. -/
def sgJoins (clauses : List Clause) :
    List (String × String × JoinType × Expression) :=
  clauses.foldr
    (fun c acc =>
      match c with
      | .joinClause db tbl jt onC => (db, tbl, jt, onC) :: acc
      | _ => acc)
    []

/-- The join loop of executable_to_string: no try/except here, so an
exception raised while visiting a join clause propagates to the caller. -/
def sgJoinFold : List (String × String × JoinType × Expression) → SGExpr →
    Except String SGExpr
  | [], q => .ok q
  | (db, tbl, jt, onC) :: rest, q => do
      let q2 ← sgVisitJoinClause db tbl jt onC (some q)
      sgJoinFold rest q2

/-- The third loop of executable_to_string: every clause that is neither
From nor Join is visited inside try/except; an exception is printed and
swallowed, and the running query is left unchanged. -/
def sgClauseFold : List Clause → SGExpr → SGExpr
  | [], q => q
  | c :: rest, q =>
      match c with
      | .fromClause _ _ => sgClauseFold rest q
      | .joinClause _ _ _ _ => sgClauseFold rest q
      | c =>
          match sgVisitClause c (some q) with
          | .ok q2 => sgClauseFold rest q2
          | .error _ => sgClauseFold rest q

/-- SQLGlotRuntime.executable_to_string (dialect/sqlglot/dialect.py):
hard-coded fixture shortcuts first, then the visitor pipeline; with no
FromClause the query stays None and the empty string is returned.  The
dialect configuration only selects the sqlglot generator flavor; the
generator model here is the duckdb default, so the result does not read the
runtime fields (matching the Python code, which reads only self.dialect). -/
def SQLGlotRuntime.executable_to_string (_rt : SQLGlotRuntime)
    (clauses : List Clause) : Except String String :=
  if sgHasFromFixture clauses && sgHasGroupBy clauses && sgHasSelection clauses then
    .ok sgHardcodedGroupBy
  else if sgHasFromFixture clauses && sgHasJoinFixture clauses then
    .ok sgHardcodedJoin
  else
    match sgLastFrom clauses with
    | none => .ok ""
    | some (db, tbl) =>
        match sgJoinFold (sgJoins clauses) (sgVisitFromClause db tbl) with
        | .error e => .error e
        | .ok q1 => .ok (sgRender (sgClauseFold clauses q1))

end LQL

namespace LQL

/-- An ordered Python dict from column name to optional type name. -/
abbrev ColumnsDict := List (String × Option String)

/-- A heap of column dicts; Python object references are indices into the
store, so dict aliasing and in-place mutation are explicit. -/
abbrev Store := List ColumnsDict

/-- Whether a key is present in a dict (Python `in`). -/
def dictContains (d : ColumnsDict) (k : String) : Bool :=
  d.any fun kv => kv.1 = k

/-- Python dict.update: existing keys are overwritten in place, new keys
are appended in the other dict's order. -/
def dictUpdate (a b : ColumnsDict) : ColumnsDict :=
  (a.map fun kv =>
    match b.find? (fun kv2 => kv2.1 = kv.1) with
    | some kv2 => (kv.1, kv2.2)
    | none => kv) ++
  b.filter fun kv => !dictContains a kv.1

/-- Python exception kinds raised by the builder code. -/
inductive PyError where
  | typeError (msg : String)
  | valueError (msg : String)
deriving DecidableEq

/-- Table of model/schema.py: a name and a reference to a columns dict. -/
structure SchemaTable where
  table : String
  colsRef : Nat
deriving DecidableEq

/-- Query of legendql/query.py.  The Database argument is kept as its name. -/
structure Query where
  database : String
  tableHistory : List SchemaTable
  table : SchemaTable
  clauses : List Clause

/-- Query.from_table: Table(table.table, table.columns.copy()) allocates a
fresh dict holding a copy of the argument's columns; the new Query owns the
fresh reference. -/
def Query.from_table (store : Store) (database : String) (table : SchemaTable) :
    Store × Query :=
  let fresh : SchemaTable := ⟨table.table, store.length⟩
  (store ++ [store.getD table.colsRef []],
   ⟨database, [fresh], fresh, [Clause.fromClause database table.table]⟩)

/-- Query.select: appends a SelectionClause of column references; the store
is untouched (the method only appends to self._clauses). -/
def Query.select (sq : Store × Query) (names : List String) : Store × Query :=
  (sq.1, ⟨sq.2.database, sq.2.tableHistory, sq.2.table,
    sq.2.clauses ++ [Clause.selection (names.map Expression.columnReference)]⟩)

/-- Query.rename: appends a RenameClause of column aliases; store untouched. -/
def Query.rename (sq : Store × Query) (renames : List (String × String)) :
    Store × Query :=
  (sq.1, ⟨sq.2.database, sq.2.tableHistory, sq.2.table,
    sq.2.clauses ++ [Clause.renameClause (renames.map fun r =>
      Expression.columnAlias r.2 (Expression.columnReference r.1))]⟩)

/-- Query.extend: appends an ExtendClause; store untouched. -/
def Query.extendQ (sq : Store × Query) (exprs : List Expression) : Store × Query :=
  (sq.1, ⟨sq.2.database, sq.2.tableHistory, sq.2.table,
    sq.2.clauses ++ [Clause.extendClause exprs]⟩)

/-- Query.filter: appends a FilterClause; store untouched. -/
def Query.filterQ (sq : Store × Query) (e : Expression) : Store × Query :=
  (sq.1, ⟨sq.2.database, sq.2.tableHistory, sq.2.table,
    sq.2.clauses ++ [Clause.filter e]⟩)

/-- Query.group_by: appends a GroupByClause; store untouched. -/
def Query.group_by (sq : Store × Query) (sels gbs : List Expression)
    (having : Option Expression) : Store × Query :=
  (sq.1, ⟨sq.2.database, sq.2.tableHistory, sq.2.table,
    sq.2.clauses ++ [Clause.groupByClause (Expression.groupByExpr sels gbs having)]⟩)

/-- Query.join: appends a JoinClause wrapping the on-condition; store
untouched. -/
def Query.join (sq : Store × Query) (database table : String) (jt : JoinType)
    (onC : Expression) : Store × Query :=
  (sq.1, ⟨sq.2.database, sq.2.tableHistory, sq.2.table,
    sq.2.clauses ++ [Clause.joinClause database table jt (Expression.joinExpr onC)]⟩)

/-- Schema of dsl/schema.py: name plus a reference to a columns dict; the
constructor stores the caller's dict object itself (no copy). -/
structure DslSchema where
  name : String
  colsRef : Nat

/-- LegendQL of dsl/legendql.py. -/
structure DslLegendQL where
  schema : DslSchema
  clauses : List Clause

/-- LegendQL.from_(name, columns): Schema(name, columns) aliases the
caller's dict (colsRef is the caller's reference, not a copy). -/
def DslLegendQL.from_ (name : String) (colsRef : Nat) : DslLegendQL :=
  ⟨⟨name, colsRef⟩, [Clause.fromClause name name]⟩

/-- The Schema.update_name call made by every dsl builder method.
dsl/schema.py declares update_name(self, str) with a required positional
parameter, and dsl/legendql.py always calls schema.update_name() with no
argument, so the call raises TypeError. -/
def dslUpdateName : Option PyError :=
  some (.typeError
    "update_name() missing 1 required positional argument: 'str'")

/-- LegendQL.select: self.schema.columns.clear() empties the shared dict in
place, the parsed SelectionClause is appended (the host-expression parser is
a black box; its result is taken as an argument), and the trailing
update_name() call raises.  The result carries the post-call store, the
post-call builder state and the exception if one was raised. -/
def DslLegendQL.select (q : DslLegendQL) (store : Store)
    (parsed : List Expression) : Store × DslLegendQL × Option PyError :=
  let store2 := store.set q.schema.colsRef []
  (store2, ⟨q.schema, q.clauses ++ [Clause.selection parsed]⟩, dslUpdateName)

/-- LegendQL._join for a plain-Expression parse result: the JoinClause is
appended, then the collision check raises ValueError when any of the left
schema's keys is present in the right schema's dict; otherwise the left
dict is updated in place with the right dict's entries, after which
update_name() raises TypeError. -/
def DslLegendQL.join (q : DslLegendQL) (other : DslLegendQL) (store : Store)
    (condition : Expression) (jt : JoinType) : Store × DslLegendQL × Option PyError :=
  let q2 : DslLegendQL :=
    ⟨q.schema, q.clauses ++
      [Clause.joinClause other.schema.name other.schema.name jt condition]⟩
  let selfCols := store.getD q.schema.colsRef []
  let otherCols := store.getD other.schema.colsRef []
  if selfCols.any (fun kv => dictContains otherCols kv.1) then
    (store, q2, some (.valueError
      "you have not renamed all the overlapping columns"))
  else
    (store.set q.schema.colsRef (dictUpdate selfCols otherCols), q2,
      dslUpdateName)

end LQL

namespace LQL

/-- Whether the sequence contains any FromClause. -/
def hasFromB : List Clause → Bool
  | [] => false
  | .fromClause _ _ :: _ => true
  | _ :: rest => hasFromB rest

theorem findFrom_eq_none : ∀ {cs : List Clause}, hasFromB cs = false →
    findFrom cs = none := by
  intro cs h
  induction cs with
  | nil => rfl
  | cons c rest ih =>
      cases c <;> first
        | exact ih h
        | simp [hasFromB] at h

theorem sgLastFrom_eq_none {cs : List Clause} (h : hasFromB cs = false) :
    sgLastFrom cs = none := by
  suffices H : ∀ (cs : List Clause), hasFromB cs = false →
      ∀ acc : Option (String × String),
        List.foldl
          (fun acc c =>
            match c with
            | Clause.fromClause db tbl => some (db, tbl)
            | _ => acc) acc cs = acc from H cs h none
  intro cs
  induction cs with
  | nil => intro _ _; rfl
  | cons c rest ih =>
      intro h acc
      cases c <;> first
        | exact ih h acc
        | simp [hasFromB] at h

theorem sgHasFromFixture_eq_false {cs : List Clause} (h : hasFromB cs = false) :
    sgHasFromFixture cs = false := by
  induction cs with
  | nil => rfl
  | cons c rest ih =>
      cases c <;> first
        | exact ih h
        | simp [hasFromB] at h

end LQL

namespace LQL

/-- C4 counterexample: on the empty clause sequence (which contains no From
clause) the DuckDB executable_to_string returns the empty string instead of
failing with an exception, so the claim is false as stated. -/
theorem C4_counterexample :
    (DuckDBRuntime.mk "db.duckdb").executable_to_string [] = .ok "" := rfl

/-- C4 (amended): a nonempty clause sequence with no From clause makes the
DuckDB executable_to_string raise ValueError ("No FROM clause found in the
query") and produce no output string; the empty sequence instead returns
the empty string, and the sqlglot executable_to_string returns the empty
string on every From-less sequence instead of raising. -/
theorem C4_missing_from :
    (∀ (rt : DuckDBRuntime) (cs : List Clause), hasFromB cs = false → cs ≠ [] →
      rt.executable_to_string cs = .error "No FROM clause found in the query") ∧
    (∀ rt : DuckDBRuntime, rt.executable_to_string [] = .ok "") ∧
    (∀ (rt : SQLGlotRuntime) (cs : List Clause), hasFromB cs = false →
      rt.executable_to_string cs = .ok "") := by
  refine ⟨fun rt cs h hne => ?_, fun rt => rfl, fun rt cs h => ?_⟩
  · cases cs with
    | nil => exact absurd rfl hne
    | cons c rest =>
        simp [DuckDBRuntime.executable_to_string, findFrom_eq_none h]
  · simp [SQLGlotRuntime.executable_to_string, sgHasFromFixture_eq_false h,
      sgLastFrom_eq_none h]

/-- C4 witness: the amended theorem applied to a concrete From-less
sequence. -/
theorem C4_missing_from_witness :
    (DuckDBRuntime.mk "x").executable_to_string
        [Clause.limitClause (.integer 1)] =
      .error "No FROM clause found in the query" ∧
    (SQLGlotRuntime.mk "n" "duckdb").executable_to_string
        [Clause.limitClause (.integer 1)] = .ok "" :=
  ⟨C4_missing_from.1 _ _ rfl (by simp),
   C4_missing_from.2.2 _ _ rfl⟩

/-- C8: executable_to_string is a pure function of the clause sequence; it
reads no runtime state beyond the dialect configuration, so two invocations
(with any connection paths or runtime names) on the same clause sequence
return identical strings. -/
theorem C8_deterministic :
    ∀ (r1 r2 : DuckDBRuntime) (s1 s2 : SQLGlotRuntime) (cs : List Clause),
      s1.dialect = s2.dialect →
      r1.executable_to_string cs = r2.executable_to_string cs ∧
      s1.executable_to_string cs = s2.executable_to_string cs :=
  fun _ _ _ _ _ _ => ⟨rfl, rfl⟩

/-- C8 witness: the determinism theorem applied at a concrete query and two
distinct runtime configurations. -/
theorem C8_deterministic_witness :
    (DuckDBRuntime.mk "a.db").executable_to_string
        [Clause.fromClause "d" "t"] =
      (DuckDBRuntime.mk "b.db").executable_to_string
        [Clause.fromClause "d" "t"] ∧
    (SQLGlotRuntime.mk "r1" "duckdb").executable_to_string
        [Clause.fromClause "d" "t"] =
      (SQLGlotRuntime.mk "r2" "duckdb").executable_to_string
        [Clause.fromClause "d" "t"] :=
  C8_deterministic (DuckDBRuntime.mk "a.db") (DuckDBRuntime.mk "b.db")
    (SQLGlotRuntime.mk "r1" "duckdb") (SQLGlotRuntime.mk "r2" "duckdb")
    [Clause.fromClause "d" "t"] rfl

end LQL

namespace LQL

/-- C3: the lowering is not input-driven.  The input below contains no
column names at all, so the column renaming salary ↦ pay fixes it; yet the
DuckDB output contains the hard-coded column name salary (inserted by
visit_function_expression for a parameterless AVG), so applying the same
renaming to the output changes it: the outputs of the renamed and original
inputs are not identical up to the renaming.  In addition, renaming only
the database test_db ↦ zzz switches the sqlglot lowering from a hard-coded
fixture string to the general path, producing an output that differs from
the renamed fixture string. -/
theorem C3_hardcoded_names :
    (DuckDBRuntime.mk "").executable_to_string
        [.fromClause "d" "t", .selection [.functionExpr .average []]] =
      .ok "WITH base_query AS (SELECT * FROM t), query_1 AS (SELECT AVG(salary) FROM base_query)\nSELECT * FROM query_1" ∧
    pyReplace "WITH base_query AS (SELECT * FROM t), query_1 AS (SELECT AVG(salary) FROM base_query)\nSELECT * FROM query_1" "salary" "pay" ≠
      "WITH base_query AS (SELECT * FROM t), query_1 AS (SELECT AVG(salary) FROM base_query)\nSELECT * FROM query_1" ∧
    (SQLGlotRuntime.mk "r" "duckdb").executable_to_string
        [.fromClause "test_db" "table", .selection [.columnReference "c"],
         .groupByClause (.groupByExpr [] [] none)] = .ok sgHardcodedGroupBy ∧
    (SQLGlotRuntime.mk "r" "duckdb").executable_to_string
        [.fromClause "zzz" "table", .selection [.columnReference "c"],
         .groupByClause (.groupByExpr [] [] none)] =
      .ok "SELECT  FROM \"zzz\".\"table\"" ∧
    pyReplace sgHardcodedGroupBy "test_db" "zzz" ≠ "SELECT  FROM \"zzz\".\"table\"" := by
  refine ⟨rfl, by decide, rfl, rfl, by decide⟩

/-- C5: a Join whose equality on-condition has a non-column left side is
lowered without any error, with the literal text "unknown" emitted as the
column name (base_query.unknown) in the generated SQL. -/
theorem C5_unknown_join :
    (DuckDBRuntime.mk "").executable_to_string
        [.fromClause "d" "t",
         .joinClause "d" "dep" .inner
           (.joinExpr (.binary (.literal (.integer 1))
             (.columnReference "c") .equals))] =
      .ok "WITH base_query AS (SELECT * FROM t), query_1 AS (SELECT * FROM base_query INNER JOIN dep ON (base_query.unknown = dep.c))\nSELECT * FROM query_1" :=
  rfl

/-- C6: visiting the filter expression AVG() raises an IndexError inside
the sqlglot visitor, but executable_to_string catches it and returns the
query with the filter silently omitted instead of propagating the
exception. -/
theorem C6_swallowed_error :
    sgVisitExpr (.functionExpr .average []) =
      .error "IndexError: list index out of range" ∧
    (SQLGlotRuntime.mk "r" "duckdb").executable_to_string
        [.fromClause "d" "t", .filter (.functionExpr .average [])] =
      .ok "SELECT * FROM \"d\".\"t\"" :=
  ⟨rfl, rfl⟩

end LQL

namespace LQL

/-- C7: on disjoint schemas, LegendQL._join merges the right schema's
columns into the left dict (the union, in order), but the call then raises
TypeError because Schema.update_name is declared with a stray required
parameter and invoked with no argument; on overlapping schemas it raises
ValueError (the column-collision error) and leaves both dicts untouched.
The host-expression parser (dsl/parser.py, absent from the source tree) is
a black box per the spec; its Expression-valued result is taken as an
argument. -/
theorem C7_join_merge :
    (((DslLegendQL.from_ "t" 0).join (DslLegendQL.from_ "u" 1)
        [[("a", none)], [("b", none)]] (.columnReference "x") .inner).1 =
      [[("a", none), ("b", none)], [("b", none)]] ∧
     ((DslLegendQL.from_ "t" 0).join (DslLegendQL.from_ "u" 1)
        [[("a", none)], [("b", none)]] (.columnReference "x") .inner).2.2 =
      some (.typeError
        "update_name() missing 1 required positional argument: 'str'")) ∧
    (((DslLegendQL.from_ "t" 0).join (DslLegendQL.from_ "u" 1)
        [[("a", none)], [("a", none)]] (.columnReference "x") .inner).1 =
      [[("a", none)], [("a", none)]] ∧
     ((DslLegendQL.from_ "t" 0).join (DslLegendQL.from_ "u" 1)
        [[("a", none)], [("a", none)]] (.columnReference "x") .inner).2.2 =
      some (.valueError "you have not renamed all the overlapping columns")) :=
  ⟨⟨rfl, rfl⟩, ⟨rfl, rfl⟩⟩

/-- C9 counterexample: dsl LegendQL.from_ stores the caller's columns dict
by reference, and select clears it in place: after select, the dict at the
shared reference is empty, so the caller's Table and any other query built
from the same dict observe the mutation. -/
theorem C9_counterexample :
    ((DslLegendQL.from_ "t" 0).select [[("a", none)]]
        [.columnReference "a"]).1 = [([] : ColumnsDict)] ∧
    ([([] : ColumnsDict)] : Store) ≠ [[("a", none)]] := by
  exact ⟨rfl, by decide⟩

/-- C9 (amended): Query.from_table allocates a fresh dict holding a copy of
the argument table's columns, so the caller's dict is never aliased; and
every Query builder operation only appends a clause, leaving the store (in
particular the caller's dict and every other query's dict) unchanged.  The
dsl LegendQL.from_, in contrast, aliases the caller's dict (see the
counterexample). -/
theorem C9_from_table_copies (store : Store) (db : String) (t : SchemaTable)
    (h : t.colsRef < store.length) (names : List String)
    (renames : List (String × String)) (exprs : List Expression)
    (e : Expression) (sels gbs : List Expression) (having : Option Expression)
    (jdb jtbl : String) (jt : JoinType) (onC : Expression) :
    (Query.from_table store db t).2.table.colsRef = store.length ∧
    (Query.from_table store db t).1.getD t.colsRef [] = store.getD t.colsRef [] ∧
    (Query.from_table store db t).1.getD store.length [] = store.getD t.colsRef [] ∧
    (Query.select (Query.from_table store db t) names).1 =
      (Query.from_table store db t).1 ∧
    (Query.rename (Query.from_table store db t) renames).1 =
      (Query.from_table store db t).1 ∧
    (Query.extendQ (Query.from_table store db t) exprs).1 =
      (Query.from_table store db t).1 ∧
    (Query.filterQ (Query.from_table store db t) e).1 =
      (Query.from_table store db t).1 ∧
    (Query.group_by (Query.from_table store db t) sels gbs having).1 =
      (Query.from_table store db t).1 ∧
    (Query.join (Query.from_table store db t) jdb jtbl jt onC).1 =
      (Query.from_table store db t).1 := by
  refine ⟨rfl, ?_, ?_, rfl, rfl, rfl, rfl, rfl, rfl⟩
  · exact List.getD_append _ _ _ _ h
  · simp [Query.from_table, List.getD, List.getElem?_append_right]

/-- C9 witness: the amended theorem applied at a concrete store and table. -/
theorem C9_from_table_copies_witness :
    (Query.from_table [[("a", some "int")]] "d" ⟨"t", 0⟩).2.table.colsRef = 1 ∧
    (Query.from_table [[("a", some "int")]] "d" ⟨"t", 0⟩).1.getD 0 [] =
      ([[("a", some "int")]] : Store).getD 0 [] ∧
    (Query.select (Query.from_table [[("a", some "int")]] "d" ⟨"t", 0⟩) ["a"]).1 =
      (Query.from_table [[("a", some "int")]] "d" ⟨"t", 0⟩).1 := by
  have := C9_from_table_copies [[("a", some "int")]] "d" ⟨"t", 0⟩ (by decide)
    ["a"] [] [] (.columnReference "a") [] [] none "d" "u" .inner
    (.columnReference "a")
  exact ⟨this.1, this.2.1, this.2.2.2.1⟩

end LQL

namespace LQL

theorem intercalate_single (s a : String) : String.intercalate s [a] = a := rfl

theorem intercalate_pair (s a b : String) :
    String.intercalate s [a, b] = a ++ s ++ b := rfl

/-- Reduction of the sqlglot executable_to_string once both fixture
shortcuts are known not to fire and the last FromClause is known. -/
theorem sgExec_general (rt : SQLGlotRuntime) (cs : List Clause)
    (h1 : (sgHasFromFixture cs && sgHasGroupBy cs && sgHasSelection cs) = false)
    (h2 : (sgHasFromFixture cs && sgHasJoinFixture cs) = false)
    (db tbl : String) (h3 : sgLastFrom cs = some (db, tbl)) :
    rt.executable_to_string cs =
      match sgJoinFold (sgJoins cs) (sgVisitFromClause db tbl) with
      | .error e => .error e
      | .ok q1 => .ok (sgRender (sgClauseFold cs q1)) := by
  unfold SQLGlotRuntime.executable_to_string
  rw [h1, h2, h3]
  rfl

/-- C2 counterexample: lowering [From(db, tbl), Selection([col])] with the
DuckDB dialect does not produce the flat query; it wraps the selection in a
WITH chain (the flat branch is unreachable whenever a SelectionClause is
present, because a SelectionClause always appends a CTE). -/
theorem C2_counterexample :
    (DuckDBRuntime.mk "").executable_to_string
        [.fromClause "db" "tbl", .selection [.columnReference "col"]] =
      .ok "WITH base_query AS (SELECT * FROM tbl), query_1 AS (SELECT col FROM base_query)\nSELECT * FROM query_1" ∧
    "WITH base_query AS (SELECT * FROM tbl), query_1 AS (SELECT col FROM base_query)\nSELECT * FROM query_1" ≠
      "SELECT col FROM tbl" := ⟨rfl, by decide⟩

set_option maxHeartbeats 1000000 in
/-- C2 (amended): for every database, table and column name (the database
nonempty, the column free of the " AS e" / " AS d" patch patterns), the
sqlglot lowering of [From, Selection([col])] is the flat quoted query
SELECT "col" FROM "db"."tbl" with no CTE wrapper, while the DuckDB lowering
of the same sequence wraps it in a base_query/query_1 WITH chain. -/
theorem C2_flat_selection (db tbl col : String) (hdb : db ≠ "")
    (hcol : repAS col = col) (srt : SQLGlotRuntime) (drt : DuckDBRuntime) :
    srt.executable_to_string
        [.fromClause db tbl, .selection [.columnReference col]] =
      .ok ("SELECT \"" ++ col ++ "\" FROM \"" ++ db ++ "\".\"" ++ tbl ++ "\"") ∧
    drt.executable_to_string
        [.fromClause db tbl, .selection [.columnReference col]] =
      .ok ("WITH base_query AS (SELECT * FROM " ++ tbl ++ "), query_1 AS (SELECT " ++
        col ++ " FROM base_query)\nSELECT * FROM query_1") := by
  constructor
  · rw [sgExec_general srt [.fromClause db tbl, .selection [.columnReference col]]
      (by simp [show sgHasGroupBy [.fromClause db tbl,
        .selection [.columnReference col]] = false from rfl])
      (by simp [show sgHasJoinFixture [.fromClause db tbl,
        .selection [.columnReference col]] = false from rfl])
      db tbl rfl]
    rw [show sgJoins [.fromClause db tbl, .selection [.columnReference col]] = []
      from rfl]
    rw [show sgJoinFold [] (sgVisitFromClause db tbl) =
      .ok (sgVisitFromClause db tbl) from rfl]
    show Except.ok (sgRender (sgClauseFold
      [.fromClause db tbl, .selection [.columnReference col]]
      (sgVisitFromClause db tbl))) = _
    rw [show sgClauseFold [.fromClause db tbl, .selection [.columnReference col]]
        (sgVisitFromClause db tbl) =
        SGExpr.select [.column col] (some (.tableRef db tbl)) none [] none []
          none none false from rfl]
    simp only [sgRender, sgRenderList, sgQuote, intercalate_single,
      Except.ok.injEq]
    rw [if_neg hdb]
    apply String.ext
    simp only [String.data_append, List.append_assoc]
    rfl
  · have hred : drt.executable_to_string
        [.fromClause db tbl, .selection [.columnReference col]] =
        Except.ok ("WITH " ++ String.intercalate ", "
          (([⟨"base_query", "SELECT *", tbl, ""⟩,
             ⟨"query_" ++ natToString 1,
              "SELECT " ++ String.intercalate ", "
                [repAS (duckVisit (.columnReference col))],
              "base_query", ""⟩] : List Cte).map renderCte) ++
          "\nSELECT * FROM " ++ ("query_" ++ natToString 1)) := rfl
    rw [hred]
    rw [show repAS (duckVisit (.columnReference col)) = col from hcol]
    simp only [List.map, renderCte, intercalate_single, intercalate_pair,
      Except.ok.injEq]
    apply String.ext
    simp only [String.data_append, List.append_assoc]
    rfl

/-- C2 witness: the amended theorem applied at a concrete database, table
and column. -/
theorem C2_flat_selection_witness :
    (SQLGlotRuntime.mk "r" "duckdb").executable_to_string
        [.fromClause "mydb" "mytbl", .selection [.columnReference "mycol"]] =
      .ok "SELECT \"mycol\" FROM \"mydb\".\"mytbl\"" ∧
    (DuckDBRuntime.mk "p").executable_to_string
        [.fromClause "mydb" "mytbl", .selection [.columnReference "mycol"]] =
      .ok "WITH base_query AS (SELECT * FROM mytbl), query_1 AS (SELECT mycol FROM base_query)\nSELECT * FROM query_1" :=
  C2_flat_selection "mydb" "mytbl" "mycol" (by decide) (by decide)
    (SQLGlotRuntime.mk "r" "duckdb") (DuckDBRuntime.mk "p")

end LQL

namespace LQL

/-- The chaining property of the synthesized CTE list: each named relation
reads FROM the name produced by the immediately preceding one, starting
from cur. -/
inductive Chain : String → List Cte → Prop
  | nil (cur : String) : Chain cur []
  | cons {cur : String} {c : Cte} {l : List Cte} :
      c.fromName = cur → Chain c.name l → Chain cur (c :: l)

/-- The naming property: the k-th relation of the list is named query_i for
the original clause position i, consecutively from n. -/
inductive Names : Nat → List Cte → Prop
  | nil (n : Nat) : Names n []
  | cons {n : Nat} {c : Cte} {l : List Cte} :
      c.name = "query_" ++ natToString n → Names (n + 1) l → Names n (c :: l)

/-- The name of the last synthesized relation (cur when none exists). -/
def lastName (cur : String) (l : List Cte) : String :=
  (l.map Cte.name).getLastD cur

theorem lastName_cons (cur : String) (c : Cte) (l : List Cte) :
    lastName cur (c :: l) = lastName c.name l := by
  simp only [lastName, List.map_cons, List.getLastD_cons]

theorem duckEmits_advances {c : Clause} (h : duckEmits c = true) :
    duckAdvances c = true := by
  cases c <;> simp_all [duckEmits, duckAdvances]

/-- The executable_to_string loop over emitting clauses appends one CTE per
clause, in clause order, each reading FROM its predecessor's name, and
finishes on the last name. -/
theorem duckLoop_chain :
    ∀ (rest : List Clause) (n : Nat) (cur : String) (acc : List Cte),
      (∀ c ∈ rest, duckEmits c = true) →
      ∃ l : List Cte,
        duckLoop (List.enumFrom n rest) cur acc = (acc ++ l, lastName cur l) ∧
        Chain cur l ∧ Names n l ∧ l.length = rest.length := by
  intro rest
  induction rest with
  | nil =>
      intro n cur acc _
      exact ⟨[], by simp [duckLoop, lastName], Chain.nil cur, Names.nil n, rfl⟩
  | cons c rest ih =>
      intro n cur acc hall
      have hemit : duckEmits c = true := hall c (by simp)
      have hadv : duckAdvances c = true := duckEmits_advances hemit
      obtain ⟨l, hl, hchain, hnames, hlen⟩ :=
        ih (n + 1) ("query_" ++ natToString n)
          (acc ++ [⟨"query_" ++ natToString n, duckSelectPart c, cur,
            duckSuffix cur c⟩]) (fun c hc => hall c (by simp [hc]))
      refine ⟨⟨"query_" ++ natToString n, duckSelectPart c, cur,
        duckSuffix cur c⟩ :: l, ?_, ?_, ?_, by simp [hlen]⟩
      · rw [show List.enumFrom n (c :: rest) =
          (n, c) :: List.enumFrom (n + 1) rest from rfl]
        simp only [duckLoop, hadv, hemit, if_true, ite_true]
        rw [hl, lastName_cons]
        simp [List.append_assoc]
      · exact Chain.cons rfl hchain
      · exact Names.cons rfl hnames

end LQL

namespace LQL

/-- C1: for a From clause followed by CTE-emitting clauses (at least two),
the DuckDB lowering emits one named relation per non-From clause, named
query_i for the original position i in order, each selecting FROM the
relation name produced by the immediately preceding lowered clause
(base_query initially), and the final SELECT reads from the last name; in
particular [From, Extend(bonus=salary/10), Filter(bonus>7500)] filters in a
relation whose FROM is the Extend's relation, referencing the computed
bonus column. -/
theorem C1_cte_chain (drt : DuckDBRuntime) (db tbl : String)
    (rest : List Clause) (hall : ∀ c ∈ rest, duckEmits c = true)
    (hlen : 2 ≤ rest.length) :
    (∃ l : List Cte,
      Chain "base_query" l ∧ Names 1 l ∧ l.length = rest.length ∧
      drt.executable_to_string (Clause.fromClause db tbl :: rest) =
        .ok ("WITH " ++ String.intercalate ", "
          ((⟨"base_query", "SELECT *", tbl, ""⟩ :: l).map renderCte) ++
          "\nSELECT * FROM " ++ lastName "base_query" l)) ∧
    drt.executable_to_string
        [Clause.fromClause "db" "employees",
         .extendClause [.computedColumnAlias "bonus" (some (.binary
           (.operand (.columnReference "salary"))
           (.operand (.literal (.integer 10))) .divide))],
         .filter (.binary (.operand (.columnReference "bonus"))
           (.operand (.literal (.integer 7500))) .greaterThan)] =
      .ok "WITH base_query AS (SELECT * FROM employees), query_1 AS (SELECT *, (salary / 10) AS bonus FROM base_query), query_2 AS (SELECT * FROM query_1 WHERE (bonus > 7500))\nSELECT * FROM query_2" := by
  constructor
  · obtain ⟨l, hl, hchain, hnames, hlen2⟩ :=
      duckLoop_chain rest 1 "base_query" [⟨"base_query", "SELECT *", tbl, ""⟩] hall
    refine ⟨l, hchain, hnames, hlen2, ?_⟩
    have hred : drt.executable_to_string (Clause.fromClause db tbl :: rest) =
        if (duckLoop (List.enumFrom 1 rest) "base_query"
              [⟨"base_query", "SELECT *", tbl, ""⟩]).1.length = 1 then
          match findSelection (Clause.fromClause db tbl :: rest) with
          | some exprs =>
              .ok ("SELECT " ++ String.intercalate ", " (exprs.map duckVisit) ++
                " FROM " ++ tbl)
          | none => .ok ("SELECT * FROM " ++ tbl)
        else
          .ok ("WITH " ++ String.intercalate ", "
            ((duckLoop (List.enumFrom 1 rest) "base_query"
              [⟨"base_query", "SELECT *", tbl, ""⟩]).1.map renderCte) ++
            "\nSELECT * FROM " ++
            (duckLoop (List.enumFrom 1 rest) "base_query"
              [⟨"base_query", "SELECT *", tbl, ""⟩]).2) := rfl
    rw [hred, hl]
    rw [if_neg (by simp only [List.length_append, List.length_cons,
      List.length_nil]; omega)]
    simp
  · rfl

/-- C1 witness: the chain theorem applied to the concrete
Extend-then-Filter sequence of the claim. -/
theorem C1_cte_chain_witness :
    ∃ l : List Cte,
      Chain "base_query" l ∧ Names 1 l ∧ l.length = 2 ∧
      (DuckDBRuntime.mk "w").executable_to_string
          (Clause.fromClause "db" "employees" ::
            [Clause.extendClause [.computedColumnAlias "bonus" (some (.binary
               (.operand (.columnReference "salary"))
               (.operand (.literal (.integer 10))) .divide))],
             Clause.filter (.binary (.operand (.columnReference "bonus"))
               (.operand (.literal (.integer 7500))) .greaterThan)]) =
        .ok ("WITH " ++ String.intercalate ", "
          ((⟨"base_query", "SELECT *", "employees", ""⟩ :: l).map renderCte) ++
          "\nSELECT * FROM " ++ lastName "base_query" l) :=
  (C1_cte_chain (DuckDBRuntime.mk "w") "db" "employees"
    [Clause.extendClause [.computedColumnAlias "bonus" (some (.binary
       (.operand (.columnReference "salary"))
       (.operand (.literal (.integer 10))) .divide))],
     Clause.filter (.binary (.operand (.columnReference "bonus"))
       (.operand (.literal (.integer 7500))) .greaterThan)]
    (by decide) (by decide)).1

end LQL

namespace LQL

/-- Inverse of digitChar on decimal digits. -/
def charVal (c : Char) : Nat :=
  if c = '0' then 0 else if c = '1' then 1 else if c = '2' then 2
  else if c = '3' then 3 else if c = '4' then 4 else if c = '5' then 5
  else if c = '6' then 6 else if c = '7' then 7 else if c = '8' then 8
  else 9

theorem charVal_digitChar {d : Nat} (h : d < 10) : charVal (digitChar d) = d := by
  interval_cases d <;> rfl

theorem natDigits_ne_nil {fuel n : Nat} (h : n < fuel) : natDigits fuel n ≠ [] := by
  cases fuel with
  | zero => omega
  | succ k =>
      by_cases hn : n < 10
      · simp [natDigits, hn]
      · simp [natDigits, hn]

theorem natDigits_fuel : ∀ (f1 : Nat) (f2 n : Nat), n < f1 → n < f2 →
    natDigits f1 n = natDigits f2 n := by
  intro f1
  induction f1 with
  | zero => intro f2 n h1 _; omega
  | succ k ih =>
      intro f2 n h1 h2
      cases f2 with
      | zero => omega
      | succ m =>
          by_cases hn : n < 10
          · simp [natDigits, hn]
          · have hdiv : n / 10 < n := Nat.div_lt_self (by omega) (by omega)
            simp only [natDigits, hn, if_false, ite_false]
            rw [ih m (n / 10) (by omega) (by omega)]

theorem natDigits_inj : ∀ (m n : Nat),
    natDigits (m + 1) m = natDigits (n + 1) n → m = n := by
  intro m
  induction m using Nat.strong_induction_on with
  | _ m ih =>
      intro n h
      by_cases hm : m < 10 <;> by_cases hn : n < 10
      · simp only [natDigits, hm, hn, if_true, ite_true] at h
        have := congrArg charVal (List.head_eq_of_cons_eq h)
        rwa [charVal_digitChar hm, charVal_digitChar hn] at this
      · exfalso
        simp only [natDigits, hm, hn, if_true, ite_true, if_false, ite_false] at h
        have hlen := congrArg List.length h
        have hne := natDigits_ne_nil (show n / 10 < n from
          Nat.div_lt_self (by omega) (by omega))
        simp [List.length_append] at hlen
        exact hne hlen
      · exfalso
        simp only [natDigits, hm, hn, if_true, ite_true, if_false, ite_false] at h
        have hlen := congrArg List.length h
        have hne := natDigits_ne_nil (show m / 10 < m from
          Nat.div_lt_self (by omega) (by omega))
        simp [List.length_append] at hlen
        exact hne hlen
      · simp only [natDigits, hm, hn, if_false, ite_false] at h
        have hrev := congrArg List.reverse h
        simp only [List.reverse_append, List.reverse_cons, List.reverse_nil,
          List.nil_append, List.cons_append] at hrev
        have hhead := List.head_eq_of_cons_eq hrev
        have htail := List.tail_eq_of_cons_eq hrev
        have hmod : m % 10 = n % 10 := by
          have := congrArg charVal hhead
          rwa [charVal_digitChar (Nat.mod_lt _ (by omega)),
            charVal_digitChar (Nat.mod_lt _ (by omega))] at this
        have hdigits : natDigits m (m / 10) = natDigits n (n / 10) := by
          have := congrArg List.reverse htail
          simpa using this
        have hmdiv : m / 10 < m := Nat.div_lt_self (by omega) (by omega)
        have hndiv : n / 10 < n := Nat.div_lt_self (by omega) (by omega)
        rw [natDigits_fuel m (m / 10 + 1) (m / 10) hmdiv (by omega),
          natDigits_fuel n (n / 10 + 1) (n / 10) hndiv (by omega)] at hdigits
        have hdiv := ih (m / 10) hmdiv (n / 10) hdigits
        omega

theorem natToString_inj {m n : Nat} (h : natToString m = natToString n) :
    m = n :=
  natDigits_inj m n (congrArg String.data h)

end LQL

namespace LQL

theorem query_name_inj {i j : Nat}
    (h : "query_" ++ natToString i = "query_" ++ natToString j) : i = j := by
  have hd := congrArg String.data h
  simp only [String.data_append] at hd
  have := List.append_cancel_left hd
  exact natToString_inj (String.ext this)

theorem query_ne_base (s : String) : "query_" ++ s ≠ "base_query" := by
  intro h
  have h1 : ("query_" ++ s).data.head? = some 'q' := rfl
  rw [h] at h1
  exact absurd h1 (by decide)

/-- Split a list at its last element satisfying p. -/
theorem exists_split_last {α : Type} (p : α → Bool) (l : List α)
    (h : ∃ x ∈ l, p x = true) :
    ∃ l1 x l2, l = l1 ++ x :: l2 ∧ p x = true ∧ ∀ y ∈ l2, p y = false := by
  induction l with
  | nil => simp at h
  | cons a rest ih =>
      by_cases hrest : ∃ x ∈ rest, p x = true
      · obtain ⟨l1, x, l2, heq, hx, hl2⟩ := ih hrest
        exact ⟨a :: l1, x, l2, by simp [heq], hx, hl2⟩
      · have ha : p a = true := by
          obtain ⟨x, hx, hpx⟩ := h
          rcases List.mem_cons.mp hx with rfl | hmem
          · exact hpx
          · exact absurd ⟨x, hmem, hpx⟩ hrest
        refine ⟨[], a, rest, by simp, ha, fun y hy => ?_⟩
        by_contra hcon
        exact hrest ⟨y, hy, by simpa using hcon⟩

/-- Split a list at its first element satisfying p. -/
theorem exists_split_first {α : Type} (p : α → Bool) (l : List α)
    (h : ∃ x ∈ l, p x = true) :
    ∃ l1 x l2, l = l1 ++ x :: l2 ∧ p x = true ∧ ∀ y ∈ l1, p y = false := by
  induction l with
  | nil => simp at h
  | cons a rest ih =>
      by_cases ha : p a = true
      · exact ⟨[], a, rest, by simp, ha, by simp⟩
      · have hrest : ∃ x ∈ rest, p x = true := by
          obtain ⟨x, hx, hpx⟩ := h
          rcases List.mem_cons.mp hx with rfl | hmem
          · exact absurd hpx ha
          · exact ⟨x, hmem, hpx⟩
        obtain ⟨l1, x, l2, heq, hx, hl1⟩ := ih hrest
        refine ⟨a :: l1, x, l2, by simp [heq], hx, fun y hy => ?_⟩
        rcases List.mem_cons.mp hy with rfl | hmem
        · simpa using ha
        · exact hl1 y hmem

end LQL

namespace LQL

theorem duckLoop_cons_skip {c : Clause} (h : duckAdvances c = false)
    (i : Nat) (l : List (Nat × Clause)) (cur : String) (acc : List Cte) :
    duckLoop ((i, c) :: l) cur acc = duckLoop l cur acc := by
  simp [duckLoop, h]

theorem duckLoop_cons_pass {c : Clause} (h1 : duckAdvances c = true)
    (h2 : duckEmits c = false) (i : Nat) (l : List (Nat × Clause))
    (cur : String) (acc : List Cte) :
    duckLoop ((i, c) :: l) cur acc =
      duckLoop l ("query_" ++ natToString i) acc := by
  simp [duckLoop, h1, h2]

theorem duckLoop_cons_emit {c : Clause} (h : duckEmits c = true)
    (i : Nat) (l : List (Nat × Clause)) (cur : String) (acc : List Cte) :
    duckLoop ((i, c) :: l) cur acc =
      duckLoop l ("query_" ++ natToString i)
        (acc ++ [⟨"query_" ++ natToString i, duckSelectPart c, cur,
          duckSuffix cur c⟩]) := by
  simp [duckLoop, duckEmits_advances h, h]

theorem duckLoop_append (l1 l2 : List (Nat × Clause)) :
    ∀ (cur : String) (acc : List Cte),
      duckLoop (l1 ++ l2) cur acc =
        duckLoop l2 (duckLoop l1 cur acc).2 (duckLoop l1 cur acc).1 := by
  induction l1 with
  | nil => intro cur acc; rfl
  | cons ic rest ih =>
      intro cur acc
      obtain ⟨i, c⟩ := ic
      by_cases hadv : duckAdvances c = true
      · by_cases hemit : duckEmits c = true
        · rw [List.cons_append, duckLoop_cons_emit hemit,
            duckLoop_cons_emit hemit, ih]
        · rw [List.cons_append,
            duckLoop_cons_pass hadv (by simpa using hemit),
            duckLoop_cons_pass hadv (by simpa using hemit), ih]
      · rw [List.cons_append, duckLoop_cons_skip (by simpa using hadv),
          duckLoop_cons_skip (by simpa using hadv), ih]

theorem duckLoop_no_advance : ∀ (ps : List Clause) (n : Nat) (cur : String)
    (acc : List Cte), (∀ c ∈ ps, duckAdvances c = false) →
    duckLoop (List.enumFrom n ps) cur acc = (acc, cur) := by
  intro ps
  induction ps with
  | nil => intro n cur acc _; rfl
  | cons c rest ih =>
      intro n cur acc h
      rw [show List.enumFrom n (c :: rest) =
        (n, c) :: List.enumFrom (n + 1) rest from rfl]
      rw [duckLoop_cons_skip (h c (by simp))]
      exact ih (n + 1) cur acc (fun c hc => h c (by simp [hc]))

/-- Every clause that is not a RenameClause advances exactly when it emits. -/
theorem advances_eq_emits {c : Clause}
    (h : ∀ als, c ≠ Clause.renameClause als) :
    duckAdvances c = duckEmits c := by
  cases c <;> first
    | rfl
    | exact absurd rfl (h _)

/-- Structure of the loop result: the accumulator only grows, every
appended CTE is named query_k for a position k among the processed
indices, and the final relation name is either the incoming one or such a
query_k. -/
theorem duckLoop_names : ∀ (ps : List Clause) (n : Nat) (cur : String)
    (acc : List Cte),
    ∃ l : List Cte,
      (duckLoop (List.enumFrom n ps) cur acc).1 = acc ++ l ∧
      (∀ c ∈ l, ∃ k, n ≤ k ∧ k < n + ps.length ∧
        c.name = "query_" ++ natToString k) ∧
      ((duckLoop (List.enumFrom n ps) cur acc).2 = cur ∨
        ∃ k, n ≤ k ∧ k < n + ps.length ∧
          (duckLoop (List.enumFrom n ps) cur acc).2 = "query_" ++ natToString k) := by
  intro ps
  induction ps with
  | nil =>
      intro n cur acc
      exact ⟨[], by simp [duckLoop], by simp, Or.inl rfl⟩
  | cons c rest ih =>
      intro n cur acc
      rw [show List.enumFrom n (c :: rest) =
        (n, c) :: List.enumFrom (n + 1) rest from rfl]
      by_cases hemit : duckEmits c = true
      · rw [duckLoop_cons_emit hemit]
        obtain ⟨l, h1, h2, h3⟩ := ih (n + 1) ("query_" ++ natToString n)
          (acc ++ [⟨"query_" ++ natToString n, duckSelectPart c, cur,
            duckSuffix cur c⟩])
        refine ⟨⟨"query_" ++ natToString n, duckSelectPart c, cur,
          duckSuffix cur c⟩ :: l, ?_, ?_, ?_⟩
        · rw [h1]; simp
        · intro x hx
          rcases List.mem_cons.mp hx with rfl | hmem
          · exact ⟨n, le_refl n, by simp, rfl⟩
          · obtain ⟨k, hk1, hk2, hk3⟩ := h2 x hmem
            exact ⟨k, by omega, by simp at hk2 ⊢; omega, hk3⟩
        · rcases h3 with h3 | ⟨k, hk1, hk2, hk3⟩
          · exact Or.inr ⟨n, le_refl n, by simp, h3⟩
          · exact Or.inr ⟨k, by omega, by simp at hk2 ⊢; omega, hk3⟩
      · by_cases hadv : duckAdvances c = true
        · rw [duckLoop_cons_pass hadv (by simpa using hemit)]
          obtain ⟨l, h1, h2, h3⟩ := ih (n + 1) ("query_" ++ natToString n) acc
          refine ⟨l, h1, ?_, ?_⟩
          · intro x hx
            obtain ⟨k, hk1, hk2, hk3⟩ := h2 x hx
            exact ⟨k, by omega, by simp at hk2 ⊢; omega, hk3⟩
          · rcases h3 with h3 | ⟨k, hk1, hk2, hk3⟩
            · exact Or.inr ⟨n, le_refl n, by simp, h3⟩
            · exact Or.inr ⟨k, by omega, by simp at hk2 ⊢; omega, hk3⟩
        · rw [duckLoop_cons_skip (by simpa using hadv)]
          obtain ⟨l, h1, h2, h3⟩ := ih (n + 1) cur acc
          refine ⟨l, h1, ?_, ?_⟩
          · intro x hx
            obtain ⟨k, hk1, hk2, hk3⟩ := h2 x hx
            exact ⟨k, by omega, by simp at hk2 ⊢; omega, hk3⟩
          · rcases h3 with h3 | ⟨k, hk1, hk2, hk3⟩
            · exact Or.inl h3
            · exact Or.inr ⟨k, by omega, by simp at hk2 ⊢; omega, hk3⟩

/-- An emitting clause strictly grows the CTE accumulator. -/
theorem duckLoop_grows : ∀ (ps : List Clause) (n : Nat) (cur : String)
    (acc : List Cte), (∃ c ∈ ps, duckEmits c = true) →
    acc.length < (duckLoop (List.enumFrom n ps) cur acc).1.length := by
  intro ps
  induction ps with
  | nil => intro n cur acc h; simp at h
  | cons c rest ih =>
      intro n cur acc h
      rw [show List.enumFrom n (c :: rest) =
        (n, c) :: List.enumFrom (n + 1) rest from rfl]
      by_cases hemit : duckEmits c = true
      · rw [duckLoop_cons_emit hemit]
        obtain ⟨l, h1, _, _⟩ := duckLoop_names rest (n + 1)
          ("query_" ++ natToString n)
          (acc ++ [⟨"query_" ++ natToString n, duckSelectPart c, cur,
            duckSuffix cur c⟩])
        rw [h1]; simp
      · have hrest : ∃ x ∈ rest, duckEmits x = true := by
          obtain ⟨x, hx, hpx⟩ := h
          rcases List.mem_cons.mp hx with rfl | hmem
          · exact absurd hpx (by simpa using hemit)
          · exact ⟨x, hmem, hpx⟩
        by_cases hadv : duckAdvances c = true
        · rw [duckLoop_cons_pass hadv (by simpa using hemit)]
          exact ih (n + 1) _ acc hrest
        · rw [duckLoop_cons_skip (by simpa using hadv)]
          exact ih (n + 1) cur acc hrest

end LQL

namespace LQL

/-- Whether a clause is a RenameClause. -/
def isRenameB : Clause → Bool
  | .renameClause _ => true
  | _ => false

/-- Reduction of the DuckDB executable_to_string to the CTE path, given the
loop result and that more than the base CTE was produced. -/
theorem duckExec_with (drt : DuckDBRuntime) (db tbl : String)
    (rest : List Clause) (ctes : List Cte) (cur : String)
    (hloop : duckLoop (List.enumFrom 1 rest) "base_query"
      [⟨"base_query", "SELECT *", tbl, ""⟩] = (ctes, cur))
    (hlen : ctes.length ≠ 1) :
    drt.executable_to_string (Clause.fromClause db tbl :: rest) =
      .ok ("WITH " ++ String.intercalate ", " (ctes.map renderCte) ++
        "\nSELECT * FROM " ++ cur) := by
  have hred : drt.executable_to_string (Clause.fromClause db tbl :: rest) =
      if (duckLoop (List.enumFrom 1 rest) "base_query"
            [⟨"base_query", "SELECT *", tbl, ""⟩]).1.length = 1 then
        match findSelection (Clause.fromClause db tbl :: rest) with
        | some exprs =>
            .ok ("SELECT " ++ String.intercalate ", " (exprs.map duckVisit) ++
              " FROM " ++ tbl)
        | none => .ok ("SELECT * FROM " ++ tbl)
      else
        .ok ("WITH " ++ String.intercalate ", "
          ((duckLoop (List.enumFrom 1 rest) "base_query"
            [⟨"base_query", "SELECT *", tbl, ""⟩]).1.map renderCte) ++
          "\nSELECT * FROM " ++
          (duckLoop (List.enumFrom 1 rest) "base_query"
            [⟨"base_query", "SELECT *", tbl, ""⟩]).2) := rfl
  rw [hred, hloop, if_neg (by simpa using hlen)]

end LQL

namespace LQL

/-- C10 counterexample: with a From clause and a RenameClause and nothing
else, only base_query is in cte_queries, so the flat branch fires and the
output is a plain SELECT containing no synthesized query_i reference at
all, let alone an undefined one; the claim fails for this sequence. -/
theorem C10_counterexample :
    (DuckDBRuntime.mk "").executable_to_string
        [.fromClause "db" "tbl", .renameClause []] = .ok "SELECT * FROM tbl" ∧
    ¬ ("query_".data <:+: "SELECT * FROM tbl".data) := ⟨rfl, by decide⟩

/-- C10 (amended): for every sequence From :: rest in which rest contains a
RenameClause and at least one CTE-emitting clause, the DuckDB lowering
takes the CTE path and produces WITH-joined CTEs plus a final SELECT, and
there is a synthesized relation name query_i (the position of the last
rename) that is read by the final SELECT or by some CTE's FROM, while no
CTE in the output defines it: the RenameClause advances current_cte without
appending a CTE. -/
theorem C10_dangling_rename (drt : DuckDBRuntime) (db tbl : String)
    (rest : List Clause)
    (hr : ∃ c ∈ rest, isRenameB c = true)
    (he : ∃ c ∈ rest, duckEmits c = true) :
    ∃ (ctes : List Cte) (cur : String) (i : Nat),
      duckLoop (List.enumFrom 1 rest) "base_query"
        [⟨"base_query", "SELECT *", tbl, ""⟩] = (ctes, cur) ∧
      drt.executable_to_string (Clause.fromClause db tbl :: rest) =
        .ok ("WITH " ++ String.intercalate ", " (ctes.map renderCte) ++
          "\nSELECT * FROM " ++ cur) ∧
      (cur = "query_" ++ natToString i ∨
        ∃ c ∈ ctes, c.fromName = "query_" ++ natToString i) ∧
      "query_" ++ natToString i ∉ ctes.map Cte.name := by
  classical
  obtain ⟨r1, rn, r2, hsplit, hrn, hr2⟩ := exists_split_last isRenameB rest hr
  have hrnAdv : duckAdvances rn = true := by
    cases rn <;> simp_all [isRenameB, duckAdvances]
  have hrnEmit : duckEmits rn = false := by
    cases rn <;> simp_all [isRenameB, duckEmits]
  set base : Cte := ⟨"base_query", "SELECT *", tbl, ""⟩ with hbase
  set i := 1 + r1.length with hi
  obtain ⟨l1, hl1a, hl1b, _⟩ := duckLoop_names r1 1 "base_query" [base]
  set r := duckLoop (List.enumFrom 1 r1) "base_query" [base] with hrdef
  have hstage1 : duckLoop (List.enumFrom 1 rest) "base_query" [base] =
      duckLoop (List.enumFrom (i + 1) r2) ("query_" ++ natToString i) r.1 := by
    rw [hsplit, List.enumFrom_append, duckLoop_append]
    rw [show List.enumFrom (1 + r1.length) (rn :: r2) =
      (1 + r1.length, rn) :: List.enumFrom (1 + r1.length + 1) r2 from rfl]
    rw [duckLoop_cons_pass hrnAdv hrnEmit]
  by_cases hcase : ∃ c ∈ r2, duckEmits c = true
  · -- an emitting clause follows the last rename
    obtain ⟨p1, e, p2, hsplit2, hee, hp1⟩ := exists_split_first duckEmits r2 hcase
    have hp1na : ∀ y ∈ p1, duckAdvances y = false := by
      intro y hy
      have hyr2 : y ∈ r2 := by rw [hsplit2]; exact List.mem_append_left _ hy
      have hnotren : ∀ als, y ≠ Clause.renameClause als := by
        intro als hEq
        have := hr2 y hyr2
        rw [hEq] at this
        simp [isRenameB] at this
      rw [advances_eq_emits hnotren]
      exact hp1 y hy
    set j := i + 1 + p1.length with hj
    set cteE : Cte := ⟨"query_" ++ natToString j, duckSelectPart e,
      "query_" ++ natToString i, duckSuffix ("query_" ++ natToString i) e⟩
      with hcteE
    have hstage2 : duckLoop (List.enumFrom (i + 1) r2)
        ("query_" ++ natToString i) r.1 =
        duckLoop (List.enumFrom (j + 1) p2) ("query_" ++ natToString j)
          (r.1 ++ [cteE]) := by
      rw [hsplit2, List.enumFrom_append, duckLoop_append,
        duckLoop_no_advance p1 (i + 1) _ _ hp1na]
      rw [show List.enumFrom (i + 1 + p1.length) (e :: p2) =
        (i + 1 + p1.length, e) :: List.enumFrom (i + 1 + p1.length + 1) p2
        from rfl]
      rw [duckLoop_cons_emit hee]
    obtain ⟨l2, hl2a, hl2b, _⟩ := duckLoop_names p2 (j + 1)
      ("query_" ++ natToString j) (r.1 ++ [cteE])
    have hfull : duckLoop (List.enumFrom 1 rest) "base_query" [base] =
        (r.1 ++ [cteE] ++ l2,
         (duckLoop (List.enumFrom (j + 1) p2) ("query_" ++ natToString j)
           (r.1 ++ [cteE])).2) := by
      rw [hstage1, hstage2]
      exact Prod.ext hl2a rfl
    refine ⟨r.1 ++ [cteE] ++ l2,
      (duckLoop (List.enumFrom (j + 1) p2) ("query_" ++ natToString j)
        (r.1 ++ [cteE])).2, i, hfull, ?_, ?_, ?_⟩
    · refine duckExec_with drt db tbl rest _ _ hfull ?_
      rw [hl1a]
      simp [List.length_append]
    · refine Or.inr ⟨cteE, ?_, rfl⟩
      exact List.mem_append_left _ (List.mem_append_right _ (by simp))
    · rw [hl1a]
      intro hmem
      simp only [List.map_append, List.mem_append, List.mem_map] at hmem
      rcases hmem with ((⟨x, hx, hxn⟩ | ⟨x, hx, hxn⟩) | ⟨x, hx, hxn⟩) | ⟨x, hx, hxn⟩
      · simp only [List.mem_singleton] at hx
        subst hx
        exact query_ne_base (natToString i) hxn.symm
      · obtain ⟨k, hk1, hk2, hk3⟩ := hl1b x hx
        rw [hk3] at hxn
        have := query_name_inj hxn
        omega
      · simp only [List.mem_singleton] at hx
        subst hx
        have := query_name_inj hxn
        omega
      · obtain ⟨k, hk1, hk2, hk3⟩ := hl2b x hx
        rw [hk3] at hxn
        have := query_name_inj hxn
        omega
  · -- no emitting clause after the last rename: the final SELECT dangles
    have hr2na : ∀ y ∈ r2, duckAdvances y = false := by
      intro y hy
      have hnotren : ∀ als, y ≠ Clause.renameClause als := by
        intro als hEq
        have := hr2 y hy
        rw [hEq] at this
        simp [isRenameB] at this
      rw [advances_eq_emits hnotren]
      by_contra hcon
      exact hcase ⟨y, hy, by simpa using hcon⟩
    have hfull : duckLoop (List.enumFrom 1 rest) "base_query" [base] =
        (r.1, "query_" ++ natToString i) := by
      rw [hstage1, duckLoop_no_advance r2 (i + 1) _ _ hr2na]
    have hemitr1 : ∃ c ∈ r1, duckEmits c = true := by
      obtain ⟨x, hx, hpx⟩ := he
      rw [hsplit] at hx
      rcases List.mem_append.mp hx with hx1 | hx2
      · exact ⟨x, hx1, hpx⟩
      · rcases List.mem_cons.mp hx2 with rfl | hx3
        · rw [hrnEmit] at hpx; exact absurd hpx (by simp)
        · exact absurd ⟨x, hx3, hpx⟩ hcase
    refine ⟨r.1, "query_" ++ natToString i, i, hfull, ?_, Or.inl rfl, ?_⟩
    · refine duckExec_with drt db tbl rest r.1 _ hfull ?_
      have := duckLoop_grows r1 1 "base_query" [base] hemitr1
      rw [← hrdef] at this
      simp at this
      omega
    · rw [hl1a]
      intro hmem
      simp only [List.map_append, List.mem_append, List.mem_map] at hmem
      rcases hmem with ⟨x, hx, hxn⟩ | ⟨x, hx, hxn⟩
      · simp only [List.mem_singleton] at hx
        subst hx
        exact query_ne_base (natToString i) hxn.symm
      · obtain ⟨k, hk1, hk2, hk3⟩ := hl1b x hx
        rw [hk3] at hxn
        have := query_name_inj hxn
        omega

/-- C10 witness: the amended theorem applied to the concrete sequence
[From, Filter, Rename], whose final SELECT reads the undefined query_2. -/
theorem C10_dangling_rename_witness :
    ∃ (ctes : List Cte) (cur : String) (i : Nat),
      duckLoop (List.enumFrom 1
          [Clause.filter (.columnReference "x"), Clause.renameClause []])
          "base_query" [⟨"base_query", "SELECT *", "tbl", ""⟩] = (ctes, cur) ∧
      (DuckDBRuntime.mk "w").executable_to_string
          (Clause.fromClause "db" "tbl" ::
            [Clause.filter (.columnReference "x"), Clause.renameClause []]) =
        .ok ("WITH " ++ String.intercalate ", " (ctes.map renderCte) ++
          "\nSELECT * FROM " ++ cur) ∧
      (cur = "query_" ++ natToString i ∨
        ∃ c ∈ ctes, c.fromName = "query_" ++ natToString i) ∧
      "query_" ++ natToString i ∉ ctes.map Cte.name :=
  C10_dangling_rename (DuckDBRuntime.mk "w") "db" "tbl"
    [Clause.filter (.columnReference "x"), Clause.renameClause []]
    (by decide) (by decide)

end LQL
